import Mathlib

/-! Motion checking, motion discretisation and sampler pools of `ompl::base`:
a shallow embedding of `SpaceInformation.cpp` and `StateSamplerArray.h`.

Conventions of the embedding:

* a state is a value of an arbitrary type `σ`; the validity oracle
  `isValid : σ → Bool` is a pure function; the states passed to one call are
  distinct objects (no two pointers of a call alias);
* `unsigned int` values are natural numbers, reduced modulo `2 ^ 32` wherever
  the source increments or adds; `int` values are integers, and an `int`
  result outside the 32-bit range is undefined behaviour;
* a `double` is the rational number it stands for; the interpolation
  parameter `(double)j / (double)count` is the IEEE 754 binary64 quotient
  (round to nearest, ties to even), see `divDouble`;
* a function whose source can run into an assertion failure or an
  out-of-range access returns `Option`: `none` means that no value is
  returned;
* the only unbounded loop (the work queue of the bisection `checkMotion`)
  is run with a budget of iterations, see `Run`;
* a member function that may throw returns the outcome of the call
  (`Except.error e` for a thrown exception `e`) together with the object as
  the call leaves it;
* where a statement counts calls (of the oracle, of the sampler, of a
  factory), the function returns the log of these calls next to its result.
-/

namespace ompl.base

/-! ## Results of running code that may not return -/

/-- Result of running code with an iteration budget: `done a` when the code
returns `a`, `undefined` when it runs into an assertion failure, an out-of-range
access or a signed overflow, `outOfFuel` when the budget of loop iterations is
used up before the code returns. -/
inductive Run (α : Type) where
  | done (a : α) : Run α
  | undefined : Run α
  | outOfFuel : Run α
  deriving DecidableEq, Repr

/-- Conversion of an `unsigned int` value to `int` (two's complement). -/
def toInt32 (n : Nat) : Int :=
  if n % 2 ^ 32 < 2 ^ 31 then ((n % 2 ^ 32 : Nat) : Int)
  else ((n % 2 ^ 32 : Nat) : Int) - 2 ^ 32

/-- Whether an integer is representable as a 32-bit `int`. -/
def inInt32 (z : Int) : Bool :=
  decide (-(2 ^ 31) ≤ z) && decide (z < 2 ^ 31)

/-! ## `SpaceInformation::checkMotion`, linear scan (lines 202-212) -/

/-- The `for` loop of the three-argument `checkMotion`: `remaining` iterations
are left, the loop variable is `i`, and `firstInvalidStateIndex` is the value
the output parameter has on entry. The result is the returned boolean
together with the value of the output parameter on exit. -/
def checkMotionScan {σ : Type} (isValid : σ → Bool) (states : List σ)
    (firstInvalidStateIndex : Nat) : Nat → Nat → Option (Bool × Nat)
  | 0, _ => some (true, firstInvalidStateIndex)
  | remaining + 1, i =>
    match states[i]? with
    | none => none
    | some s =>
      if !isValid s then some (false, i)
      else checkMotionScan isValid states firstInvalidStateIndex remaining (i + 1)

/-- The overload `checkMotion(states, count, firstInvalidStateIndex)`: the
assertion `states.size() >= count`, then the scan over `0 .. count - 1`. -/
def checkMotionFirstInvalid {σ : Type} (isValid : σ → Bool) (states : List σ)
    (count : Nat) (firstInvalidStateIndex : Nat) : Option (Bool × Nat) :=
  if states.length < count then none
  else checkMotionScan isValid states firstInvalidStateIndex count 0

/-! ## `SpaceInformation::checkMotion`, bisection (lines 214-252) -/

/-- The `while (!pos.empty())` loop of the two-argument `checkMotion`. The
queue `pos` is a list whose head is `pos.front()` and to whose end `push`
appends. The body reads `pos.front()` and pushes; it contains no `pos.pop()`,
so the queue handed to the next iteration still starts with `x`. -/
def bisectLoop {σ : Type} (isValid : σ → Bool) (states : List σ) :
    Nat → List (Int × Int) → Run Bool
  | _, [] => Run.done true
  | 0, _ :: _ => Run.outOfFuel
  | fuel + 1, x :: rest =>
    if !inInt32 (x.1 + x.2) then Run.undefined
    else
      let mid : Int := Int.tdiv (x.1 + x.2) 2
      if mid < 0 then Run.undefined
      else
        match states[mid.toNat]? with
        | none => Run.undefined
        | some s =>
          if !isValid s then Run.done false
          else
            let pos₀ := x :: rest
            let pos₁ := if x.1 < mid - 1 then pos₀ ++ [(x.1, mid)] else pos₀
            let pos₂ := if x.2 > mid + 1 then pos₁ ++ [(mid, x.2)] else pos₁
            bisectLoop isValid states fuel pos₂

/-- The overload `checkMotion(states, count)`; `fuel` bounds the number of
iterations of the work-queue loop. -/
def checkMotion {σ : Type} (isValid : σ → Bool) (states : List σ) (count : Nat)
    (fuel : Nat) : Run Bool :=
  if states.length < count then Run.undefined
  else if count > 0 then
    if count > 1 then
      match states.head? with
      | none => Run.undefined
      | some first =>
        if !isValid first then Run.done false
        else
          match states[count - 1]? with
          | none => Run.undefined
          | some last =>
            if !isValid last then Run.done false
            else if count > 2 then
              bisectLoop isValid states fuel [((0 : Int), toInt32 (count - 1))]
            else Run.done true
    else
      match states.head? with
      | none => Run.undefined
      | some first => Run.done (isValid first)
  else Run.done true

/-! ## The quotient of two counters in `double` arithmetic -/

/-- The binary exponent of the quotient `j / count`, as a shift: the least
`s` from the given one on with `2 ^ 52 * count ≤ j * 2 ^ s`, so that
`j * 2 ^ s / count` has 53 binary digits. The first argument bounds the
search. -/
def doubleShift (j count : Nat) : Nat → Nat → Nat
  | 0, s => s
  | fuel + 1, s =>
    if 2 ^ 52 * count ≤ j * 2 ^ s then s else doubleShift j count fuel (s + 1)

/-- The 53-bit significand of the quotient `j / count` for the shift `s`:
`j * 2 ^ s / count` rounded to the nearest integer, a tie going to the even
one. -/
def doubleMantissa (j count s : Nat) : Nat :=
  let q := j * 2 ^ s / count
  let r := j * 2 ^ s % count
  if 2 * r < count then q
  else if count < 2 * r then q + 1
  else if q % 2 = 0 then q else q + 1

/-- The value of `(double)j / (double)count` (line 186) for counters
`1 ≤ j, count < 2 ^ 53`: both conversions are exact, and the IEEE 754
binary64 division gives the quotient rounded to 53 significant bits, to
nearest, ties to even; the result is the rational number that this `double`
stands for. For `j = 0` it is 0; `count = 0` (a division by zero) does not
occur in `getMotionStates`, and 0 stands in for it. -/
def divDouble (j count : Nat) : ℚ :=
  if j = 0 ∨ count = 0 then 0
  else
    ((doubleMantissa j count (doubleShift j count 128 0) : Nat) : ℚ) /
      (2 : ℚ) ^ (doubleShift j count 128 0)

/-! ## The state manifold as seen from `SpaceInformation` -/

/-- The virtual operations of a state manifold that `SpaceInformation.cpp`
calls. `allocState` is the content of a freshly allocated state,
`interpolate from to t` the content that `interpolate(from, to, t, state)`
leaves in `state`, for the `double` parameter whose value is `t`. -/
structure StateManifold (σ : Type) where
  allocState : σ
  interpolate : σ → σ → ℚ → σ
  satisfiesBounds : σ → Bool
  enforceBounds : σ → σ

/-- Modelled from the spec: `copyState(destination, source)`, defined in
`SpaceInformation.h` and the manifold implementations, which are not among
the sources: the destination takes the value of the source. The result is
the new content of `destination`. -/
def copyState {σ : Type} (_destination source : σ) : σ := source

/-- Modelled from the spec: the Euclidean manifold of
`RealVectorStateManifold.h`, whose member functions are defined in a file
that is not among the sources. A state is its coordinate vector,
`interpolate` is `from[i] + t * (to[i] - from[i])` in every coordinate, and
`enforceBounds` clamps every coordinate into `[low, high]` (the same interval
in every dimension). Coordinates are rationals; a fresh state holds zeros. -/
def RealVectorStateManifold (dimension : Nat) (low high : ℚ) : StateManifold (List ℚ) where
  allocState := List.replicate dimension 0
  interpolate := fun fromState toState t =>
    List.zipWith (fun a b => a + t * (b - a)) fromState toState
  satisfiesBounds := fun state => state.all (fun v => decide (low ≤ v) && decide (v ≤ high))
  enforceBounds := fun state =>
    state.map (fun v => if v > high then high else if v < low then low else v)

/-! ## `SpaceInformation::getMotionStates` (lines 130-199) -/

/-- A `std::vector<State*>`: an entry is `none` for a null pointer and
`some v` for a pointer to an allocated state whose content is `v`. -/
abbrev StateVector (σ : Type) := List (Option σ)

/-- Effect of `states.resize(n)`: the first `n` entries are kept and null
pointers are appended up to length `n`. -/
def resizeVector {σ : Type} (states : StateVector σ) (n : Nat) : StateVector σ :=
  states.take n ++ List.replicate (n - states.length) none

/-- Effect of `states[i] = allocState()`; `none` when `i` is out of range. -/
def assignAlloc {σ : Type} (M : StateManifold σ) (states : StateVector σ) (i : Nat) :
    Option (StateVector σ) :=
  if i < states.length then some (states.set i (some M.allocState)) else none

/-- Effect of a call that writes through the pointer `states[i]`: `write`
gives the new content of the state from its old content; `none` when `i` is
out of range or the pointer is null. -/
def writeState {σ : Type} (states : StateVector σ) (i : Nat) (write : σ → σ) :
    Option (StateVector σ) :=
  match states[i]? with
  | some (some old) => some (states.set i (some (write old)))
  | _ => none

/-- What a call of `getMotionStates` leaves behind: the returned number
`added`, the vector `states`, and the parameters `t` of the calls of
`interpolate`, in the order of the calls. -/
structure MotionStates (σ : Type) where
  added : Nat
  states : StateVector σ
  ts : List ℚ
  deriving DecidableEq

/-- The loop `for (j = 1; j < count && added < states.size(); ++j)`. The
first argument bounds the number of iterations; `getMotionStates` passes
`count`, which the loop cannot use up since `j` starts at 1. -/
def motionLoop {σ : Type} (M : StateManifold σ) (s1 s2 : σ) (count : Nat) (alloc : Bool) :
    Nat → Nat → MotionStates σ → Option (MotionStates σ)
  | 0, _, acc => some acc
  | fuel + 1, j, acc =>
    if j < count ∧ acc.added < acc.states.length then
      (if alloc then assignAlloc M acc.states acc.added else some acc.states).bind fun st =>
      (writeState st acc.added
          (fun _ => M.interpolate s1 s2 (divDouble j count))).bind fun st =>
      motionLoop M s1 s2 count alloc fuel ((j + 1) % 2 ^ 32)
        { added := (acc.added + 1) % 2 ^ 32, states := st,
          ts := acc.ts ++ [divDouble j count] }
    else some acc

/-- The branch `count < 2` of `getMotionStates` (lines 135-164). -/
def getMotionStatesDegenerate {σ : Type} (M : StateManifold σ) (s1 s2 : σ)
    (states : StateVector σ) (endpoints alloc : Bool) : Option (MotionStates σ) :=
  if endpoints then
    (if alloc then
        (assignAlloc M (resizeVector states 2) 0).bind fun st => assignAlloc M st 1
      else some states).bind fun st =>
    (if st.length > 0 then
        (writeState st 0 (fun old => copyState old s1)).bind fun st => some (st, (0 + 1) % 2 ^ 32)
      else some (st, 0)).bind fun (st, added) =>
    (if st.length > 1 then
        (writeState st 1 (fun old => copyState old s2)).bind fun st => some (st, (added + 1) % 2 ^ 32)
      else some (st, added)).bind fun (st, added) =>
    some { added := added, states := st, ts := [] }
  else
    some { added := 0, states := if alloc then resizeVector states 0 else states, ts := [] }

/-- The function `getMotionStates(s1, s2, states, count, endpoints, alloc)`.
`count` is the number of interior states asked for; `count + (endpoints ? 1 : -1)`
is an `unsigned int` sum, so `-1` is `2 ^ 32 - 1`. -/
def getMotionStates {σ : Type} (M : StateManifold σ) (s1 s2 : σ) (states : StateVector σ)
    (count : Nat) (endpoints alloc : Bool) : Option (MotionStates σ) :=
  let count := (count + 1) % 2 ^ 32
  if count < 2 then getMotionStatesDegenerate M s1 s2 states endpoints alloc
  else
    (if alloc then
        let st := resizeVector states ((count + (if endpoints then 1 else 2 ^ 32 - 1)) % 2 ^ 32)
        if endpoints then assignAlloc M st 0 else some st
      else some states).bind fun st =>
    (if endpoints ∧ st.length > 0 then
        (writeState st 0 (fun old => copyState old s1)).bind fun st => some (st, (0 + 1) % 2 ^ 32)
      else some (st, 0)).bind fun (st, added) =>
    (motionLoop M s1 s2 count alloc count 1 { added := added, states := st, ts := [] }).bind
      fun acc =>
    if acc.added < acc.states.length ∧ endpoints then
      (if alloc then assignAlloc M acc.states acc.added else some acc.states).bind fun st =>
      (writeState st acc.added (fun old => copyState old s2)).bind fun st =>
      some { acc with added := (acc.added + 1) % 2 ^ 32, states := st }
    else some acc

/-! ## `SpaceInformation::searchValidNearby` (lines 102-128) -/

/-- What a call of `searchValidNearby` leaves behind: the returned boolean,
the content of `state`, and for every call of `sampleUniformNear`, in order,
the content of the anchor passed as `near` and the sample written to
`state`. -/
structure NearbySearch (σ : Type) where
  result : Bool
  state : σ
  anchors : List σ
  samples : List σ
  deriving DecidableEq

/-- The loop `for (i = 0; i < attempts && !result; ++i)`; the first argument
is `attempts - i`. The sampler `ss` is a generator state `ρ`, and
`sampleUniformNear ss near distance` gives the sample and the next generator
state. -/
def searchLoop {σ δ ρ : Type} (isValid : σ → Bool) (sampleUniformNear : ρ → σ → δ → σ × ρ)
    (temp : σ) (distance : δ) : Nat → ρ → NearbySearch σ → NearbySearch σ
  | 0, _, acc => acc
  | remaining + 1, ss, acc =>
    if !acc.result then
      let drawn := sampleUniformNear ss temp distance
      searchLoop isValid sampleUniformNear temp distance remaining drawn.2
        { result := isValid drawn.1, state := drawn.1,
          anchors := acc.anchors ++ [temp], samples := acc.samples ++ [drawn.1] }
    else acc

/-- The function `searchValidNearby(state, near, distance, attempts)`; `ss`
is the sampler that `allocManifoldStateSampler()` returns. When the pointers
`state` and `near` are equal the two contents are equal, so that the guarded
`copyState` leaves the content of `near` in `state` in both cases. -/
def searchValidNearby {σ δ ρ : Type} (M : StateManifold σ) (isValid : σ → Bool)
    (sampleUniformNear : ρ → σ → δ → σ × ρ) (ss : ρ)
    (state near : σ) (distance : δ) (attempts : Nat) : NearbySearch σ :=
  let state := copyState state near
  let state := if !M.satisfiesBounds state then M.enforceBounds state else state
  let result := isValid state
  if !result then
    let temp := copyState M.allocState state
    searchLoop isValid sampleUniformNear temp distance attempts ss
      { result := result, state := state, anchors := [], samples := [] }
  else { result := result, state := state, anchors := [], samples := [] }

/-- The content that lines 104-109 of `searchValidNearby` leave in `state`
before validity is first tested: the copy of `near`, passed through
`enforceBounds` when it does not satisfy the bounds. -/
def repairedNear {σ : Type} (M : StateManifold σ) (near : σ) : σ :=
  if !M.satisfiesBounds near then M.enforceBounds near else near

/-! ## `StateSamplerArray` (StateSamplerArray.h, lines 98-156) -/

/-- The member `samplers_` of a `StateSamplerArray`: an entry is `none` for
an empty pointer and `some a` for a pointer to the sampler `a`. -/
structure StateSamplerArray (α : Type) where
  samplers_ : List (Option α)
  deriving DecidableEq

/-- What a call of `resize` leaves behind: the array, the state of the
sampler factory, and the samplers the factory returned, in call order. -/
structure Resized (α κ : Type) where
  array : StateSamplerArray α
  factory : κ
  allocated : List α

/-- The loop `for (i = c; i < count; ++i) samplers_[i] = ss_.allocStateSampler(si_)`;
the first argument is `count - i`. Every `i` it visits is below the size of
the vector, which `resize(count)` has set to `count`. -/
def resizeLoop {α κ : Type} (allocStateSampler : κ → α × κ) :
    Nat → Nat → Resized α κ → Resized α κ
  | 0, _, acc => acc
  | remaining + 1, i, acc =>
    let made := allocStateSampler acc.factory
    resizeLoop allocStateSampler remaining (i + 1)
      { array := { samplers_ := acc.array.samplers_.set i (some made.1) },
        factory := made.2, allocated := acc.allocated ++ [made.1] }

/-- The size reported by `size()`. -/
def StateSamplerArray.size {α : Type} (a : StateSamplerArray α) : Nat := a.samplers_.length

/-- The method `resize(count)`; the factory `ss_.allocStateSampler(si_)` is
a function of a factory state `κ`. -/
def StateSamplerArray.resize {α κ : Type} (allocStateSampler : κ → α × κ) (factory : κ)
    (a : StateSamplerArray α) (count : Nat) : Resized α κ :=
  if a.samplers_.length > count then
    { array := { samplers_ := resizeVector a.samplers_ count }, factory := factory, allocated := [] }
  else if a.samplers_.length < count then
    let c := a.samplers_.length
    resizeLoop allocStateSampler (count - c) c
      { array := { samplers_ := resizeVector a.samplers_ count }, factory := factory,
        allocated := [] }
  else { array := a, factory := factory, allocated := [] }

/-! ## `SpaceInformation`: construction and `setup` (lines 44-73) -/

/-- An `ompl::Exception`, with its message. -/
structure Exception where
  what : String
  deriving DecidableEq, Repr

/-- Modelled from the spec: a state validity checker. The classes
`StateValidityChecker` and `AllValidStateValidityChecker` are declared in
headers that are not among the sources. `allValid` is the always-valid
default, `custom fn` any other checker, `fn` being its `isValid`. -/
inductive StateValidityChecker (σ : Type) where
  | allValid : StateValidityChecker σ
  | custom (fn : σ → Bool) : StateValidityChecker σ

/-- Modelled from the spec: `isValid(state)` of a checker; the always-valid
default accepts every state. -/
def StateValidityChecker.isValid {σ : Type} : StateValidityChecker σ → σ → Bool
  | StateValidityChecker.allValid, _ => true
  | StateValidityChecker.custom fn, state => fn state

/-- A motion validator object: `discrete` is a `DiscreteMotionValidator`,
`custom fn` any other validator, `fn` being its `checkMotion(s1, s2)`. -/
inductive MotionValidator (σ : Type) where
  | discrete : MotionValidator σ
  | custom (fn : σ → σ → Bool) : MotionValidator σ

/-- The two virtual member functions of the manifold object that
`SpaceInformation::setup` calls. The manifold object has a state `μ`;
`setup` either throws or leaves the manifold in a new state, and
`getDimension` reads the dimension (an `unsigned int`). -/
structure ManifoldObject (μ : Type) where
  setup : μ → Except Exception μ
  getDimension : μ → Nat

/-- The members of a `SpaceInformation` that the constructor and `setup`
touch. A shared pointer that may be empty is an `Option`; `warnings` is what
`msg_.warn` has printed. -/
structure SpaceInformation (μ σ : Type) where
  stateManifold_ : μ
  stateValidityChecker_ : Option (StateValidityChecker σ)
  motionValidator_ : Option (MotionValidator σ)
  setup_ : Bool
  warnings : List String

/-- The constructor `SpaceInformation(manifold)` (lines 44-49); `none` is a
null manifold pointer. The member initialisers install a
`DiscreteMotionValidator` and clear `setup_`; the body throws when the
manifold pointer is null. -/
def SpaceInformation.construct {μ σ : Type} (manifold : Option μ) :
    Except Exception (SpaceInformation μ σ) :=
  match manifold with
  | none => Except.error { what := "Invalid manifold definition" }
  | some m =>
    Except.ok { stateManifold_ := m, stateValidityChecker_ := none,
                motionValidator_ := some MotionValidator.discrete, setup_ := false,
                warnings := [] }

/-- The method `setup()` (lines 51-68). The result is the outcome of the
call, `Except.ok ()` for a normal return and `Except.error e` for a thrown
exception `e`, together with the object as the call leaves it (members
assigned before a `throw` stay assigned). -/
def SpaceInformation.setup {μ σ : Type} (manifold : ManifoldObject μ)
    (si : SpaceInformation μ σ) : Except Exception Unit × SpaceInformation μ σ :=
  let si₁ : SpaceInformation μ σ :=
    if si.stateValidityChecker_.isNone then
      { si with
        stateValidityChecker_ := some StateValidityChecker.allValid,
        warnings := si.warnings ++
          ["State validity checker not set! No collision checking is performed"] }
    else si
  let si₂ : SpaceInformation μ σ :=
    if si₁.motionValidator_.isNone then
      { si₁ with motionValidator_ := some MotionValidator.discrete }
    else si₁
  match manifold.setup si₂.stateManifold_ with
  | Except.error e => (Except.error e, si₂)
  | Except.ok m =>
    let si₃ : SpaceInformation μ σ := { si₂ with stateManifold_ := m }
    if manifold.getDimension m ≤ 0 then
      (Except.error
        { what := "The dimension of the state manifold we plan in must be > 0" }, si₃)
    else (Except.ok (), { si₃ with setup_ := true })

/-- The object as lines 53-60 of `setup()` leave it, before the manifold is
set up: an empty validity checker is replaced by the always-valid default
(with a warning), an empty motion validator by a `DiscreteMotionValidator`;
a member that is set is kept. -/
def SpaceInformation.withDefaults {μ σ : Type} (si : SpaceInformation μ σ) :
    SpaceInformation μ σ :=
  { stateManifold_ := si.stateManifold_,
    stateValidityChecker_ :=
      some (si.stateValidityChecker_.getD StateValidityChecker.allValid),
    motionValidator_ := some (si.motionValidator_.getD MotionValidator.discrete),
    setup_ := si.setup_,
    warnings :=
      if si.stateValidityChecker_.isNone then
        si.warnings ++ ["State validity checker not set! No collision checking is performed"]
      else si.warnings }

/-- The method `isSetup()` (lines 70-73). -/
def SpaceInformation.isSetup {μ σ : Type} (si : SpaceInformation μ σ) : Bool := si.setup_

/-- Modelled from the spec: `SpaceInformation::isValid(state)`, defined in
`SpaceInformation.h`, which is not among the sources: the answer of the
installed validity checker; `none` when no checker is installed. -/
def SpaceInformation.isValid {μ σ : Type} (si : SpaceInformation μ σ) (state : σ) :
    Option Bool :=
  si.stateValidityChecker_.map (fun checker => checker.isValid state)

/-! ## Bisection `checkMotion` with the log of the oracle calls -/

/-- The loop of `bisectLoop`, which in addition appends to `log` the index of
every state on which `isValid` is called. -/
def bisectLoopLog {σ : Type} (isValid : σ → Bool) (states : List σ) :
    Nat → List (Int × Int) → List Nat → Run Bool × List Nat
  | _, [], log => (Run.done true, log)
  | 0, _ :: _, log => (Run.outOfFuel, log)
  | fuel + 1, x :: rest, log =>
    if !inInt32 (x.1 + x.2) then (Run.undefined, log)
    else
      let mid : Int := Int.tdiv (x.1 + x.2) 2
      if mid < 0 then (Run.undefined, log)
      else
        match states[mid.toNat]? with
        | none => (Run.undefined, log)
        | some s =>
          if !isValid s then (Run.done false, log ++ [mid.toNat])
          else
            let pos₀ := x :: rest
            let pos₁ := if x.1 < mid - 1 then pos₀ ++ [(x.1, mid)] else pos₀
            let pos₂ := if x.2 > mid + 1 then pos₁ ++ [(mid, x.2)] else pos₁
            bisectLoopLog isValid states fuel pos₂ (log ++ [mid.toNat])

/-- The overload `checkMotion(states, count)` as in `checkMotion`, which in
addition gives the indices of the states on which `isValid` has been called,
in the order of the calls. -/
def checkMotionLog {σ : Type} (isValid : σ → Bool) (states : List σ) (count : Nat)
    (fuel : Nat) : Run Bool × List Nat :=
  if states.length < count then (Run.undefined, [])
  else if count > 0 then
    if count > 1 then
      match states.head? with
      | none => (Run.undefined, [])
      | some first =>
        if !isValid first then (Run.done false, [0])
        else
          match states[count - 1]? with
          | none => (Run.undefined, [0])
          | some last =>
            if !isValid last then (Run.done false, [0, count - 1])
            else if count > 2 then
              bisectLoopLog isValid states fuel [((0 : Int), toInt32 (count - 1))]
                [0, count - 1]
            else (Run.done true, [0, count - 1])
    else
      match states.head? with
      | none => (Run.undefined, [])
      | some first => (Run.done (isValid first), [0])
  else (Run.done true, [])

/-! ## Reference notions used in the statements -/

/-- The states of the discretised motion in path order, as the spec
describes them: `s1` when `endpoints` is set, the interpolated states for
`j / (n + 1)`, `j = 1 .. n` (the quotient of `double` arithmetic, as in the
code), and `s2` when `endpoints` is set. -/
def motionPath {σ : Type} (M : StateManifold σ) (s1 s2 : σ) (n : Nat) (endpoints : Bool) :
    List σ :=
  (if endpoints then [s1] else []) ++
    (List.range' 1 n).map (fun j : Nat => M.interpolate s1 s2 (divDouble j (n + 1))) ++
    (if endpoints then [s2] else [])

/-- The first `n` samples that a sampler in state `ss` draws around `temp`
when it is called `n` times in a row. -/
def sampleSequence {σ δ ρ : Type} (sampleUniformNear : ρ → σ → δ → σ × ρ) (temp : σ)
    (distance : δ) : Nat → ρ → List σ
  | 0, _ => []
  | n + 1, ss =>
    (sampleUniformNear ss temp distance).1 ::
      sampleSequence sampleUniformNear temp distance n (sampleUniformNear ss temp distance).2

/-- The samplers that a factory in state `factory` returns when it is called
`n` times in a row, and the state it is left in. -/
def allocSequence {α κ : Type} (allocStateSampler : κ → α × κ) : Nat → κ → List α × κ
  | 0, factory => ([], factory)
  | n + 1, factory =>
    let rest := allocSequence allocStateSampler n (allocStateSampler factory).2
    ((allocStateSampler factory).1 :: rest.1, rest.2)

/-! # Properties -/

/-! ## Linear scan -/

theorem checkMotionScan_all_valid {σ : Type} (isValid : σ → Bool) (states : List σ) (idx : Nat) :
    ∀ (n i : Nat), i + n ≤ states.length →
      (∀ m s, i ≤ m → m < i + n → states[m]? = some s → isValid s = true) →
      checkMotionScan isValid states idx n i = some (true, idx) := by
  intro n
  induction n with
  | zero => intro i _ _; rfl
  | succ n ih =>
    intro i hlen hall
    have hi : i < states.length := by omega
    have hget : states[i]? = some states[i] := List.getElem?_eq_getElem hi
    have hv : isValid states[i] = true := hall i _ (le_refl i) (by omega) hget
    simp only [checkMotionScan, hget, hv]
    exact ih (i + 1) (by omega) (fun m s h1 h2 h3 => hall m s (by omega) (by omega) h3)

theorem checkMotionScan_first_invalid {σ : Type} (isValid : σ → Bool) (states : List σ)
    (idx k : Nat) (sk : σ) (hsk : states[k]? = some sk) (hbad : isValid sk = false) :
    ∀ (n i : Nat), i ≤ k → k < i + n →
      (∀ m s, i ≤ m → m < k → states[m]? = some s → isValid s = true) →
      checkMotionScan isValid states idx n i = some (false, k) := by
  intro n
  induction n with
  | zero => intro i h1 h2 _; omega
  | succ n ih =>
    intro i hik hkn hall
    rcases Nat.eq_or_lt_of_le hik with heq | hlt
    · subst heq
      simp [checkMotionScan, hsk, hbad]
    · have hklen : k < states.length := by
        by_contra hcon
        rw [List.getElem?_eq_none (by omega)] at hsk
        cases hsk
      have hi : i < states.length := by omega
      have hget : states[i]? = some states[i] := List.getElem?_eq_getElem hi
      have hv : isValid states[i] = true := hall i _ (le_refl i) hlt hget
      simp only [checkMotionScan, hget, hv]
      exact ih (i + 1) (by omega) (by omega)
        (fun m s h1 h2 h3 => hall m s (by omega) h2 h3)

/-- C1: the linear-scan `checkMotion` on a sequence of at least `count`
states returns true, leaving the output parameter alone, when all of
`states[0 .. count-1]` are valid; it returns false and reports `k` when `k` is
the smallest index below `count` whose state is invalid; in particular it
reports `k` when `k` is the only invalid index; and it always returns, with
true exactly when all of the states are valid. -/
theorem checkMotionFirstInvalid_first_invalid {σ : Type} (isValid : σ → Bool)
    (states : List σ) (count idx : Nat) (hlen : count ≤ states.length) :
    ((∀ i s, i < count → states[i]? = some s → isValid s = true) →
        checkMotionFirstInvalid isValid states count idx = some (true, idx)) ∧
    (∀ k sk, k < count → states[k]? = some sk → isValid sk = false →
        (∀ i s, i < k → states[i]? = some s → isValid s = true) →
        checkMotionFirstInvalid isValid states count idx = some (false, k)) ∧
    (∀ k, k < count →
        (∀ i s, i < count → states[i]? = some s → (isValid s = false ↔ i = k)) →
        checkMotionFirstInvalid isValid states count idx = some (false, k)) ∧
    (∃ r, checkMotionFirstInvalid isValid states count idx = some r ∧
        (r.1 = true ↔ ∀ i s, i < count → states[i]? = some s → isValid s = true)) := by
  have hnot : ¬ states.length < count := by omega
  have h1 : (∀ i s, i < count → states[i]? = some s → isValid s = true) →
      checkMotionFirstInvalid isValid states count idx = some (true, idx) := by
    intro hall
    simp only [checkMotionFirstInvalid, hnot, if_false]
    exact checkMotionScan_all_valid isValid states idx count 0 (by omega)
      (fun m s _ h2 h3 => hall m s (by omega) h3)
  have h2 : ∀ k sk, k < count → states[k]? = some sk → isValid sk = false →
      (∀ i s, i < k → states[i]? = some s → isValid s = true) →
      checkMotionFirstInvalid isValid states count idx = some (false, k) := by
    intro k sk hk hsk hbad hall
    simp only [checkMotionFirstInvalid, hnot, if_false]
    exact checkMotionScan_first_invalid isValid states idx k sk hsk hbad count 0
      (Nat.zero_le k) (by omega) (fun m s _ h2 h3 => hall m s h2 h3)
  refine ⟨h1, h2, ?_, ?_⟩
  · intro k hk hex
    have hklen : k < states.length := by omega
    have hget : states[k]? = some states[k] := List.getElem?_eq_getElem hklen
    refine h2 k states[k] hk hget ((hex k _ hk hget).2 rfl) ?_
    intro i s hi hs
    have hne : ¬ isValid s = false := fun hf => by
      have := (hex i s (by omega) hs).1 hf
      omega
    simpa using hne
  · by_cases hall : ∀ i s, i < count → states[i]? = some s → isValid s = true
    · exact ⟨(true, idx), h1 hall, ⟨fun _ => hall, fun _ => rfl⟩⟩
    · have hex : ∃ k, k < count ∧ ∃ s, states[k]? = some s ∧ isValid s = false := by
        by_contra hcon
        apply hall
        intro i s hi hs
        by_contra hv
        exact hcon ⟨i, hi, s, hs, by simpa using hv⟩
      classical
      have hmin := Nat.find_spec hex
      obtain ⟨hk, sk, hsk, hbad⟩ := hmin
      refine ⟨(false, Nat.find hex), h2 _ sk hk hsk hbad ?_,
        ⟨fun h => Bool.noConfusion h, fun h => absurd h hall⟩⟩
      intro i s hi hs
      by_contra hv
      exact Nat.find_min hex hi ⟨by omega, s, hs, by simpa using hv⟩

/-- Witness for C1: in `[1, 2, 7, 4]` with `7` the only invalid state the scan
over 4 states reports index 2. -/
theorem checkMotionFirstInvalid_first_invalid_witness :
    4 ≤ ([1, 2, 7, 4] : List Nat).length ∧
      checkMotionFirstInvalid (fun n : Nat => n != 7) [1, 2, 7, 4] 4 99 = some (false, 2) :=
  ⟨by decide,
    (checkMotionFirstInvalid_first_invalid (fun n : Nat => n != 7) [1, 2, 7, 4] 4 99
      (by decide)).2.1 2 7 (by decide) (by decide) (by decide)
      (by
        intro i s hi hs
        interval_cases i <;> simp at hs <;> subst hs <;> decide)⟩

/-! ## Bisection -/

theorem bisectLoop_front_stays {σ : Type} (isValid : σ → Bool) (states : List σ)
    (c : Nat) (s : σ) (hc : c < 2 ^ 31) (hs : states[c / 2]? = some s)
    (hv : isValid s = true) :
    ∀ (fuel : Nat) (rest : List (Int × Int)),
      bisectLoop isValid states fuel (((0 : Int), (c : Int)) :: rest) = Run.outOfFuel := by
  have hin : inInt32 ((0 : Int) + (c : Int)) = true := by
    simp only [inInt32, Bool.and_eq_true, decide_eq_true_eq]
    constructor <;> omega
  have hmid : Int.tdiv ((0 : Int) + (c : Int)) 2 = ((c / 2 : Nat) : Int) := by
    rw [zero_add]
    exact (Int.ofNat_tdiv c 2).symm
  intro fuel
  induction fuel with
  | zero => intro rest; rfl
  | succ fuel ih =>
    intro rest
    have hneg : ¬ ((c / 2 : Nat) : Int) < 0 := by omega
    simp only [bisectLoop, hin, hmid, hneg, Int.toNat_ofNat, hs, hv, Bool.not_true,
      Bool.false_eq_true, if_false, List.cons_append]
    split_ifs <;> exact ih _

theorem checkMotion_stuck_of_mid_valid {σ : Type} (isValid : σ → Bool) (states : List σ)
    (count : Nat) (h3 : 3 ≤ count) (hlen : count ≤ states.length) (hsmall : count ≤ 2 ^ 31)
    (hfirst : ∀ s, states[0]? = some s → isValid s = true)
    (hlast : ∀ s, states[count - 1]? = some s → isValid s = true)
    (hmid : ∀ s, states[(count - 1) / 2]? = some s → isValid s = true) (fuel : Nat) :
    checkMotion isValid states count fuel = Run.outOfFuel := by
  have hnot : ¬ states.length < count := by omega
  have b0 : 0 < states.length := by omega
  have bl : count - 1 < states.length := by omega
  have bm : (count - 1) / 2 < states.length := by omega
  have h0 : states[0]? = some states[0] := List.getElem?_eq_getElem b0
  have hl : states[count - 1]? = some states[count - 1] := List.getElem?_eq_getElem bl
  have hm : states[(count - 1) / 2]? = some states[(count - 1) / 2] :=
    List.getElem?_eq_getElem bm
  have hhead : states.head? = some states[0] := by
    rw [← h0]; exact (List.head?_eq_getElem? states)
  have hto : toInt32 (count - 1) = ((count - 1 : Nat) : Int) := by
    have hmod : (count - 1) % 2 ^ 32 = count - 1 := Nat.mod_eq_of_lt (by omega)
    have hlt : count - 1 < 2 ^ 31 := by omega
    simp only [toInt32, hmod, hlt, if_true]
  have c0 : count > 0 := by omega
  have c1 : count > 1 := by omega
  have c2 : count > 2 := by omega
  simp only [checkMotion, hnot, c0, c1, c2, hhead, hl, hfirst _ h0, hlast _ hl, hto, if_true,
    if_false, Bool.not_true, Bool.false_eq_true]
  exact bisectLoop_front_stays isValid states (count - 1) _ (by omega) hm (hmid _ hm) fuel []

/-- C2 (defect of the code): on a sequence of `count ≥ 3` states that are all
valid (with `count - 1` in the range of `int`) the bisection `checkMotion`
does not return true, it does not return at all: whatever the budget of loop
iterations, the work-queue loop is still running, because the interval at the
front of the queue is read and never popped. -/
theorem checkMotion_all_valid_never_returns {σ : Type} (isValid : σ → Bool)
    (states : List σ) (count : Nat) (h3 : 3 ≤ count) (hlen : count ≤ states.length)
    (hsmall : count ≤ 2 ^ 31)
    (hall : ∀ i s, i < count → states[i]? = some s → isValid s = true) :
    ∀ fuel, checkMotion isValid states count fuel = Run.outOfFuel := by
  intro fuel
  exact checkMotion_stuck_of_mid_valid isValid states count h3 hlen hsmall
    (fun s hs => hall 0 s (by omega) hs)
    (fun s hs => hall (count - 1) s (by omega) hs)
    (fun s hs => hall ((count - 1) / 2) s (by omega) hs) fuel

/-- Witness for C2: three states, all accepted by the oracle; no budget of
iterations lets `checkMotion(states, 3)` return. -/
theorem checkMotion_all_valid_never_returns_witness :
    (3 ≤ ([1, 2, 3] : List Nat).length ∧
      ∀ i s, i < 3 → ([1, 2, 3] : List Nat)[i]? = some s → (fun _ : Nat => true) s = true) ∧
    ∀ fuel, checkMotion (fun _ : Nat => true) [1, 2, 3] 3 fuel = Run.outOfFuel :=
  ⟨⟨by decide, fun _ _ _ _ => rfl⟩,
    checkMotion_all_valid_never_returns (fun _ : Nat => true) [1, 2, 3] 3
      (by decide) (by decide) (by decide) (fun _ _ _ _ => rfl)⟩

/-- C3 (defect of the code): on a sequence of `count ≥ 3` states in which
exactly index `k` is invalid, where `k` is neither an endpoint nor the
midpoint `(count - 1) / 2`, the bisection `checkMotion` does not return false,
it does not return at all: the loop examines the midpoint of the whole
interval again and again and never reaches index `k`. -/
theorem checkMotion_one_invalid_never_returns {σ : Type} (isValid : σ → Bool)
    (states : List σ) (count k : Nat) (h3 : 3 ≤ count) (hlen : count ≤ states.length)
    (hsmall : count ≤ 2 ^ 31) (_hk : k < count)
    (hex : ∀ i s, i < count → states[i]? = some s → (isValid s = false ↔ i = k))
    (hk0 : k ≠ 0) (hkl : k ≠ count - 1) (hkm : k ≠ (count - 1) / 2) :
    ∀ fuel, checkMotion isValid states count fuel = Run.outOfFuel := by
  intro fuel
  have hval : ∀ i s, i < count → i ≠ k → states[i]? = some s → isValid s = true := by
    intro i s hi hne hs
    have hnf : ¬ isValid s = false := fun hf => hne ((hex i s hi hs).1 hf)
    simpa using hnf
  exact checkMotion_stuck_of_mid_valid isValid states count h3 hlen hsmall
    (fun s hs => hval 0 s (by omega) (fun h => hk0 h.symm) hs)
    (fun s hs => hval (count - 1) s (by omega) (fun h => hkl h.symm) hs)
    (fun s hs => hval ((count - 1) / 2) s (by omega) (fun h => hkm h.symm) hs) fuel

/-- Witness for C3: in `[1, 2, 7, 4]` only index 2 is invalid; no budget of
iterations lets `checkMotion(states, 4)` return. -/
theorem checkMotion_one_invalid_never_returns_witness :
    (4 ≤ ([1, 2, 7, 4] : List Nat).length ∧ 2 < 4 ∧
      ∀ i s, i < 4 → ([1, 2, 7, 4] : List Nat)[i]? = some s →
        ((fun n : Nat => n != 7) s = false ↔ i = 2)) ∧
    ∀ fuel, checkMotion (fun n : Nat => n != 7) [1, 2, 7, 4] 4 fuel = Run.outOfFuel :=
  have hex : ∀ i s, i < 4 → ([1, 2, 7, 4] : List Nat)[i]? = some s →
      ((fun n : Nat => n != 7) s = false ↔ i = 2) := by
    intro i s hi hs
    interval_cases i <;> simp at hs <;> subst hs <;> decide
  ⟨⟨by decide, by decide, hex⟩,
    checkMotion_one_invalid_never_returns (fun n : Nat => n != 7) [1, 2, 7, 4] 4 2
      (by decide) (by decide) (by decide) (by decide) hex (by decide) (by decide) (by decide)⟩

/-! ## The quotient in `double` arithmetic -/

/-- For a quotient below 1 the shift is at least 53. -/
theorem doubleShift_ge (j count : Nat) (hlt : j < count) :
    ∀ (fuel s : Nat), 53 ≤ s + fuel → 53 ≤ doubleShift j count fuel s := by
  intro fuel
  induction fuel with
  | zero => intro s hs; simpa [doubleShift] using hs
  | succ fuel ih =>
    intro s hs
    simp only [doubleShift]
    split_ifs with hcond
    · by_contra hsmall
      have hs52 : s ≤ 52 := by omega
      have h1 : j * 2 ^ s ≤ j * 2 ^ 52 :=
        Nat.mul_le_mul_left j (Nat.pow_le_pow_right (by norm_num) hs52)
      have h2 : j * 2 ^ 52 < count * 2 ^ 52 :=
        Nat.mul_lt_mul_of_pos_right hlt (by norm_num)
      have h3 : 2 ^ 52 * count = count * 2 ^ 52 := Nat.mul_comm _ _
      omega
    · exact ih (s + 1) (by omega)

/-- The shift normalises the quotient: once `j * 2 ^ s` is below
`2 ^ 53 * count` and the search is long enough, the shift found puts
`j * 2 ^ s / count` between `2 ^ 52` and `2 ^ 53`. -/
theorem doubleShift_normal (j count : Nat) :
    ∀ (fuel s : Nat), j * 2 ^ s < 2 ^ 53 * count → 2 ^ 52 * count ≤ j * 2 ^ (s + fuel) →
      2 ^ 52 * count ≤ j * 2 ^ doubleShift j count fuel s ∧
      j * 2 ^ doubleShift j count fuel s < 2 ^ 53 * count := by
  intro fuel
  induction fuel with
  | zero =>
    intro s hup hlow
    exact ⟨by simpa [doubleShift] using hlow, by simpa [doubleShift] using hup⟩
  | succ fuel ih =>
    intro s hup hlow
    simp only [doubleShift]
    split_ifs with hcond
    · exact ⟨hcond, hup⟩
    · refine ih (s + 1) ?_ ?_
      · have hpow : j * 2 ^ (s + 1) = 2 * (j * 2 ^ s) := by rw [pow_succ]; ring
        have h53 : (2 : Nat) ^ 53 * count = 2 * (2 ^ 52 * count) := by
          rw [show (53 : Nat) = 52 + 1 from rfl, pow_succ]; ring
        omega
      · rw [show s + 1 + fuel = s + (fuel + 1) by omega]
        exact hlow

/-- For counters `1 ≤ j < count < 2 ^ 53` the shift of `divDouble` is the
binary exponent of the quotient: `j * 2 ^ s / count` lies between `2 ^ 52`
and `2 ^ 53`, so that the significand has 53 bits. -/
theorem divDouble_shift_normal (j count : Nat) (hj : 1 ≤ j) (hlt : j < count)
    (hcount : count < 2 ^ 53) :
    2 ^ 52 * count ≤ j * 2 ^ doubleShift j count 128 0 ∧
    j * 2 ^ doubleShift j count 128 0 < 2 ^ 53 * count := by
  refine doubleShift_normal j count 128 0 ?_ ?_
  · have h1 : 1 * count ≤ 2 ^ 53 * count := Nat.mul_le_mul_right count (by norm_num)
    omega
  · have h1 : 2 ^ 52 * count ≤ 2 ^ 52 * 2 ^ 53 := Nat.mul_le_mul_left _ (by omega)
    have h2 : (2 : Nat) ^ 52 * 2 ^ 53 ≤ 1 * 2 ^ (0 + 128) := by norm_num
    have h3 : 1 * 2 ^ (0 + 128) ≤ j * 2 ^ (0 + 128) := Nat.mul_le_mul_right _ hj
    omega

/-- Rounding to nearest: the significand times `count` is within `count / 2`
of `j * 2 ^ s`. -/
theorem doubleMantissa_near (j count s : Nat) (hc : 0 < count) :
    2 * (doubleMantissa j count s * count) ≤ 2 * (j * 2 ^ s) + count ∧
    2 * (j * 2 ^ s) ≤ 2 * (doubleMantissa j count s * count) + count := by
  have hdiv : count * (j * 2 ^ s / count) + j * 2 ^ s % count = j * 2 ^ s :=
    Nat.div_add_mod _ _
  have hmod : j * 2 ^ s % count < count := Nat.mod_lt _ hc
  have hq : (j * 2 ^ s / count) * count = count * (j * 2 ^ s / count) := Nat.mul_comm _ _
  have hq1 : (j * 2 ^ s / count + 1) * count = count * (j * 2 ^ s / count) + count := by
    rw [Nat.add_mul, Nat.one_mul, hq]
  simp only [doubleMantissa]
  split_ifs with h1 h2 h3
  · rw [hq]; omega
  · rw [hq1]; omega
  · rw [hq]; omega
  · rw [hq1]; omega

/-- A quotient below 1 is within `2 ^ -54` of the exact quotient. -/
theorem divDouble_near (j count : Nat) (hj : 1 ≤ j) (hlt : j < count) :
    |divDouble j count - (j : ℚ) / (count : ℚ)| ≤ 1 / 2 ^ 54 := by
  have hc : 0 < count := by omega
  have hne : ¬ (j = 0 ∨ count = 0) := by omega
  have hs := doubleShift_ge j count hlt 128 0 (by omega)
  obtain ⟨hup, hlow⟩ := doubleMantissa_near j count (doubleShift j count 128 0) hc
  simp only [divDouble, hne, if_false]
  generalize doubleShift j count 128 0 = s at hs hup hlow
  generalize doubleMantissa j count s = m at hup hlow
  have hcq : (0 : ℚ) < (count : ℚ) := by exact_mod_cast hc
  have hpq : (0 : ℚ) < (2 : ℚ) ^ s := by positivity
  have hupq : (2 : ℚ) * ((m : ℚ) * (count : ℚ)) ≤ 2 * ((j : ℚ) * 2 ^ s) + (count : ℚ) := by
    exact_mod_cast hup
  have hlowq : (2 : ℚ) * ((j : ℚ) * 2 ^ s) ≤ 2 * ((m : ℚ) * (count : ℚ)) + (count : ℚ) := by
    exact_mod_cast hlow
  have hhalf : (1 : ℚ) / 2 ^ (s + 1) ≤ 1 / 2 ^ 54 := by
    apply one_div_le_one_div_of_le (by positivity)
    exact pow_le_pow_right₀ (by norm_num) (by omega)
  have hdiff : (m : ℚ) / 2 ^ s - (j : ℚ) / (count : ℚ) =
      ((m : ℚ) * (count : ℚ) - (j : ℚ) * 2 ^ s) / ((count : ℚ) * 2 ^ s) := by
    field_simp
    ring
  have hbound : |(m : ℚ) / 2 ^ s - (j : ℚ) / (count : ℚ)| ≤ 1 / 2 ^ (s + 1) := by
    rw [hdiff, abs_le]
    have hden : (0 : ℚ) < (count : ℚ) * 2 ^ s := by positivity
    have hmul : (1 : ℚ) / 2 ^ (s + 1) * ((count : ℚ) * 2 ^ s) = (count : ℚ) / 2 := by
      rw [pow_succ]
      field_simp
      ring
    constructor
    · rw [le_div_iff₀ hden, neg_mul, hmul]
      linarith
    · rw [div_le_iff₀ hden, hmul]
      linarith
  exact le_trans hbound hhalf

/-- The parameters of the interpolation loop lie strictly between 0 and 1. -/
theorem divDouble_bounds (j count : Nat) (hj : 1 ≤ j) (hlt : j < count)
    (hcount : count < 2 ^ 32) : 0 < divDouble j count ∧ divDouble j count < 1 := by
  have hnear := abs_le.mp (divDouble_near j count hj hlt)
  have hcq : (0 : ℚ) < (count : ℚ) := by exact_mod_cast (by omega : 0 < count)
  have hc32 : (count : ℚ) < 2 ^ 32 := by exact_mod_cast hcount
  have hinv : (1 : ℚ) / 2 ^ 32 < 1 / (count : ℚ) := one_div_lt_one_div_of_lt hcq hc32
  have hlow : (1 : ℚ) / (count : ℚ) ≤ (j : ℚ) / (count : ℚ) :=
    div_le_div_of_nonneg_right (by exact_mod_cast hj) hcq.le
  have hup : (j : ℚ) / (count : ℚ) ≤ 1 - 1 / (count : ℚ) := by
    rw [le_sub_iff_add_le, ← add_div, div_le_one hcq]
    exact_mod_cast hlt
  have hnum : (1 : ℚ) / 2 ^ 54 < 1 / 2 ^ 32 := by norm_num
  constructor
  · linarith [hnear.1]
  · linarith [hnear.2]

/-- The parameters of the interpolation loop increase strictly with `j`. -/
theorem divDouble_strictMono (a b count : Nat) (ha : 1 ≤ a) (hab : a < b) (hb : b < count)
    (hcount : count < 2 ^ 32) : divDouble a count < divDouble b count := by
  have hna := abs_le.mp (divDouble_near a count ha (by omega))
  have hnb := abs_le.mp (divDouble_near b count (by omega) hb)
  have hcq : (0 : ℚ) < (count : ℚ) := by exact_mod_cast (by omega : 0 < count)
  have hc32 : (count : ℚ) < 2 ^ 32 := by exact_mod_cast hcount
  have hinv : (1 : ℚ) / 2 ^ 32 < 1 / (count : ℚ) := one_div_lt_one_div_of_lt hcq hc32
  have hstep : (a : ℚ) / (count : ℚ) + 1 / (count : ℚ) ≤ (b : ℚ) / (count : ℚ) := by
    rw [← add_div]
    exact div_le_div_of_nonneg_right (by exact_mod_cast hab) hcq.le
  have hnum : (2 : ℚ) * (1 / 2 ^ 54) < 1 / 2 ^ 32 := by norm_num
  linarith [hna.2, hnb.1]

/-- The quarters are `double` numbers: `1/4`, `2/4` and `3/4` are not rounded. -/
theorem divDouble_quarters :
    divDouble 1 4 = 1 / 4 ∧ divDouble 2 4 = 1 / 2 ∧ divDouble 3 4 = 3 / 4 := by
  have s1 : doubleShift 1 4 128 0 = 54 := by decide
  have s2 : doubleShift 2 4 128 0 = 53 := by decide
  have s3 : doubleShift 3 4 128 0 = 53 := by decide
  have m1 : doubleMantissa 1 4 54 = 4503599627370496 := by decide
  have m2 : doubleMantissa 2 4 53 = 4503599627370496 := by decide
  have m3 : doubleMantissa 3 4 53 = 6755399441055744 := by decide
  refine ⟨?_, ?_, ?_⟩
  · simp only [divDouble, s1, m1]
    norm_num
  · simp only [divDouble, s2, m2]
    norm_num
  · simp only [divDouble, s3, m3]
    norm_num

/-- The tenths are rounded: the `double` values of `1/10`, `2/10`, `3/10`. -/
theorem divDouble_tenths :
    divDouble 1 10 = 7205759403792794 / 2 ^ 56 ∧
    divDouble 2 10 = 7205759403792794 / 2 ^ 55 ∧
    divDouble 3 10 = 5404319552844595 / 2 ^ 54 := by
  have s1 : doubleShift 1 10 128 0 = 56 := by decide
  have s2 : doubleShift 2 10 128 0 = 55 := by decide
  have s3 : doubleShift 3 10 128 0 = 54 := by decide
  have m1 : doubleMantissa 1 10 56 = 7205759403792794 := by decide
  have m2 : doubleMantissa 2 10 55 = 7205759403792794 := by decide
  have m3 : doubleMantissa 3 10 54 = 5404319552844595 := by decide
  refine ⟨?_, ?_, ?_⟩
  · simp only [divDouble, s1, m1]
    norm_num
  · simp only [divDouble, s2, m2]
    norm_num
  · simp only [divDouble, s3, m3]
    norm_num

/-! ## Motion discretisation -/

theorem length_resizeVector {σ : Type} (states : StateVector σ) (n : Nat) :
    (resizeVector states n).length = n := by
  simp only [resizeVector, List.length_append, List.length_take, List.length_replicate]
  omega

theorem assignAlloc_append {σ : Type} (M : StateManifold σ) (pre : StateVector σ)
    (x : Option σ) (rest : StateVector σ) :
    assignAlloc M (pre ++ x :: rest) pre.length = some (pre ++ some M.allocState :: rest) := by
  simp [assignAlloc]

theorem writeState_append {σ : Type} (pre : StateVector σ) (v : σ) (write : σ → σ)
    (rest : StateVector σ) :
    writeState (pre ++ some v :: rest) pre.length write =
      some (pre ++ some (write v) :: rest) := by
  have hget : (pre ++ some v :: rest)[pre.length]? = some (some v) := by
    rw [List.getElem?_append_right (le_refl _)]
    simp
  simp [writeState, hget]

/-- With `alloc` set, `k` further iterations of the interpolation loop fill the
next `k` slots with the interpolated states for `j, j + 1, ..., j + k - 1`. -/
theorem motionLoop_alloc {σ : Type} (M : StateManifold σ) (s1 s2 : σ) (count : Nat)
    (hcount : count < 2 ^ 32) :
    ∀ (k fuel j : Nat) (pre mid tail : StateVector σ) (ts : List ℚ),
      k ≤ fuel → j + k = count → mid.length = k → pre.length + k < 2 ^ 32 →
      motionLoop M s1 s2 count true fuel j
          { added := pre.length, states := pre ++ (mid ++ tail), ts := ts } =
        some { added := pre.length + k,
               states := pre ++ ((List.range' j k).map
                  (fun i : Nat => some (M.interpolate s1 s2 (divDouble i count))) ++ tail),
               ts := ts ++ (List.range' j k).map (fun i : Nat => divDouble i count) } := by
  intro k
  induction k with
  | zero =>
    intro fuel j pre mid tail ts _ hj hmid _
    have hmid0 : mid = [] := List.length_eq_zero.mp hmid
    subst hmid0
    have hnot : ¬ j < count := by omega
    cases fuel with
    | zero => simp [motionLoop]
    | succ fuel => simp [motionLoop, hnot]
  | succ k ih =>
    intro fuel j pre mid tail ts hfuel hj hmid hlen
    obtain ⟨fuel, rfl⟩ : ∃ f, fuel = f + 1 := ⟨fuel - 1, by omega⟩
    obtain ⟨x, mid, rfl⟩ : ∃ x m, mid = x :: m := by
      cases mid with
      | nil => simp at hmid
      | cons x m => exact ⟨x, m, rfl⟩
    have hjc : j < count := by omega
    have hcond : j < count ∧ pre.length < (pre ++ (x :: mid ++ tail)).length := by
      refine ⟨hjc, ?_⟩
      simp only [List.length_append, List.length_cons]
      omega
    have hj1 : (j + 1) % 2 ^ 32 = j + 1 := Nat.mod_eq_of_lt (by omega)
    have ha1 : (pre.length + 1) % 2 ^ 32 = pre.length + 1 := Nat.mod_eq_of_lt (by omega)
    have hmidlen : mid.length = k := by simpa using hmid
    have hstep := ih fuel (j + 1)
      (pre ++ [some (M.interpolate s1 s2 (divDouble j count))]) mid tail
      (ts ++ [divDouble j count]) (by omega) (by omega) hmidlen
      (by simp only [List.length_append, List.length_singleton]; omega)
    simp only [List.length_append, List.length_singleton, List.append_assoc,
      List.singleton_append] at hstep
    rw [motionLoop, if_pos hcond]
    simp only [if_true, List.cons_append, assignAlloc_append, writeState_append,
      Option.some_bind, Option.bind_eq_bind, hj1, ha1]
    rw [hstep]
    simp only [List.range'_succ, List.map_cons, List.cons_append, Nat.add_assoc,
      Nat.add_comm 1 k]

theorem exists_cons_append_of_length {α : Type} (l : List α) (n : Nat)
    (h : l.length = n + 2) : ∃ x mid y, l = x :: (mid ++ [y]) ∧ mid.length = n := by
  cases l with
  | nil => simp at h
  | cons x l =>
    have hl : l.length = n + 1 := by simpa using h
    have hne : l ≠ [] := by
      intro hnil
      rw [hnil] at hl
      simp at hl
    refine ⟨x, l.dropLast, l.getLast hne, ?_, ?_⟩
    · rw [List.dropLast_append_getLast hne]
    · rw [List.length_dropLast, hl]
      rfl

/-- C4 (amended range): for every interior count `n` with `1 ≤ n` and
`n + 2 < 2 ^ 32`, `getMotionStates(s1, s2, out, n, endpoints = true, alloc = true)`
returns `n + 2` and leaves `out` with exactly `n + 2` entries in path order:
`out[0]` holds `s1`, `out[j]` holds `interpolate(s1, s2, j / (n + 1))` for
`1 ≤ j ≤ n`, the quotient being the one of `double` arithmetic, and
`out[n + 1]` holds `s2`. -/
theorem getMotionStates_endpoints_alloc {σ : Type} (M : StateManifold σ) (s1 s2 : σ)
    (out : StateVector σ) (n : Nat) (h1 : 1 ≤ n) (h2 : n + 2 < 2 ^ 32) :
    ∃ r, getMotionStates M s1 s2 out n true true = some r ∧
      r.added = n + 2 ∧ r.states.length = n + 2 ∧
      r.states = some s1 :: ((List.range' 1 n).map
          (fun j : Nat => some (M.interpolate s1 s2 (divDouble j (n + 1)))) ++
          [some s2]) ∧
      r.states[0]? = some (some s1) ∧
      (∀ j, 1 ≤ j → j ≤ n →
        r.states[j]? = some (some (M.interpolate s1 s2 (divDouble j (n + 1))))) ∧
      r.states[n + 1]? = some (some s2) := by
  have hc : (n + 1) % 2 ^ 32 = n + 1 := Nat.mod_eq_of_lt (by omega)
  have hnot : ¬ n + 1 < 2 := by omega
  have hsz : (n + 1 + 1) % 2 ^ 32 = n + 2 := Nat.mod_eq_of_lt (by omega)
  obtain ⟨x, mid, y, hres, hmid⟩ :=
    exists_cons_append_of_length (resizeVector out (n + 2)) n (length_resizeVector out (n + 2))
  have hloop := motionLoop_alloc M s1 s2 (n + 1) (by omega) n (n + 1) 1 [some s1] mid [y] []
    (by omega) (by omega) hmid (by simp only [List.length_singleton]; omega)
  simp only [List.length_singleton, List.singleton_append, List.nil_append] at hloop
  have ha0 : assignAlloc M (x :: (mid ++ [y])) 0 = some (some M.allocState :: (mid ++ [y])) :=
    assignAlloc_append M [] x (mid ++ [y])
  have hw0 : writeState (some M.allocState :: (mid ++ [y])) 0 (fun old => copyState old s1) =
      some (some s1 :: (mid ++ [y])) :=
    writeState_append [] M.allocState (fun old => copyState old s1) (mid ++ [y])
  set interps : StateVector σ := (List.range' 1 n).map
    (fun j : Nat => some (M.interpolate s1 s2 (divDouble j (n + 1)))) with hinterps
  have hilen : interps.length = n := by simp [hinterps]
  have hpre : (some s1 :: interps).length = n + 1 := by simp [hilen]
  have ha1 : assignAlloc M (some s1 :: (interps ++ [y])) (1 + n) =
      some (some s1 :: (interps ++ [some M.allocState])) := by
    have := assignAlloc_append M (some s1 :: interps) y []
    rw [hpre] at this
    rw [Nat.add_comm 1 n]
    simpa using this
  have hw1 : writeState (some s1 :: (interps ++ [some M.allocState])) (1 + n)
      (fun old => copyState old s2) = some (some s1 :: (interps ++ [some s2])) := by
    have := writeState_append (some s1 :: interps) M.allocState (fun old => copyState old s2) []
    rw [hpre] at this
    rw [Nat.add_comm 1 n]
    simpa [copyState] using this
  have hlt : 1 + n < (some s1 :: (interps ++ [y])).length := by
    simp only [List.length_cons, List.length_append, List.length_singleton, hilen]
    omega
  have hadd : (1 + n + 1) % 2 ^ 32 = n + 2 := by
    rw [Nat.mod_eq_of_lt (by omega)]
    omega
  refine ⟨{ added := n + 2, states := some s1 :: (interps ++ [some s2]),
            ts := (List.range' 1 n).map (fun i : Nat => divDouble i (n + 1)) },
    ?_, rfl, ?_, rfl, by simp, ?_, ?_⟩
  · simp only [getMotionStates, hc, hnot, if_false, if_true, hsz, hres, ha0,
      Option.some_bind, Option.bind_eq_bind, List.length_cons, Nat.zero_lt_succ, and_self,
      hw0, Nat.zero_add, Nat.one_mod_two_pow_eq_one.mpr (by norm_num : 0 < 32)]
    rw [hloop]
    simp only [Option.some_bind, Option.bind_eq_bind]
    rw [if_pos ⟨hlt, trivial⟩]
    simp only [if_true, ha1, hw1, hadd, Option.some_bind, Option.bind_eq_bind]
  · simp only [List.length_cons, List.length_append, List.length_singleton, hilen,
      List.length_nil]
  · intro j hj1 hjn
    obtain ⟨i, rfl⟩ : ∃ i, j = i + 1 := ⟨j - 1, by omega⟩
    have hi : i < interps.length := by omega
    simp only [List.getElem?_cons_succ]
    rw [List.getElem?_append_left hi, List.getElem?_eq_getElem hi]
    simp only [hinterps, List.getElem_map, List.getElem_range', Nat.one_mul]
    rw [Nat.add_comm 1 i]
  · simp only [List.getElem?_cons_succ]
    rw [List.getElem?_append_right (by omega), hilen]
    simp

/-- Witness for C4: on the 1-D Euclidean manifold, `s1 = [0]`, `s2 = [4]` and
`n = 3` give exactly the 5 states `[0], [1], [2], [3], [4]`. -/
theorem getMotionStates_endpoints_alloc_witness :
    (1 ≤ 3 ∧ 3 + 2 < 2 ^ 32) ∧
    ∃ r, getMotionStates (RealVectorStateManifold 1 0 10) [0] [4] [] 3 true true = some r ∧
      r.added = 5 ∧
      r.states = [some [0], some [1], some [2], some [3], some [4]] :=
  ⟨⟨by decide, by decide⟩,
    match getMotionStates_endpoints_alloc (RealVectorStateManifold 1 0 10) [0] [4] [] 3
      (by decide) (by decide) with
    | ⟨r, hr, hadd, _, hst, _⟩ =>
      ⟨r, hr, hadd, by
        rw [hst]
        simp only [List.range', List.map_cons, List.map_nil, List.cons_append,
          List.nil_append, divDouble_quarters.1, divDouble_quarters.2.1,
          divDouble_quarters.2.2]
        simp [RealVectorStateManifold]
        norm_num⟩⟩

/-- Counterexample to C4 as stated: `n = 2 ^ 32 - 2` is within the claimed
range, but `count + 1` wraps to 0, `states.resize(0)` empties the vector and
the assignment to `states[0]` is out of range: no value `n + 2` is returned. -/
theorem getMotionStates_endpoints_alloc_counterexample :
    (1 ≤ 4294967294 ∧ 4294967294 < 2 ^ 32 - 1) ∧
    getMotionStates (RealVectorStateManifold 1 0 10) [0] [4] [] 4294967294 true true = none ∧
    ¬ ∃ r, getMotionStates (RealVectorStateManifold 1 0 10) [0] [4] [] 4294967294 true true
        = some r ∧ r.added = 4294967294 + 2 := by
  have hnone : getMotionStates (RealVectorStateManifold 1 0 10) [0] [4] [] 4294967294 true true
      = none := by
    simp [getMotionStates, resizeVector, assignAlloc]
  refine ⟨⟨by decide, by decide⟩, hnone, ?_⟩
  rintro ⟨r, hr, _⟩
  rw [hnone] at hr
  cases hr

/-- Without endpoints and with `alloc`, the call returns `n`, the vector is
the `n` interpolated states, and the parameters passed to `interpolate` are
the `double` quotients of `j` and `n + 1` for `j = 1, ..., n`, in this order. -/
theorem getMotionStates_interior_alloc_run {σ : Type} (M : StateManifold σ) (s1 s2 : σ)
    (out : StateVector σ) (n : Nat) (h1 : 1 ≤ n) (h2 : n < 2 ^ 32 - 1) :
    getMotionStates M s1 s2 out n false true =
      some { added := n,
             states := (List.range' 1 n).map
               (fun j : Nat => some (M.interpolate s1 s2 (divDouble j (n + 1)))),
             ts := (List.range' 1 n).map (fun j : Nat => divDouble j (n + 1)) } := by
  have hc : (n + 1) % 2 ^ 32 = n + 1 := Nat.mod_eq_of_lt (by omega)
  have hnot : ¬ n + 1 < 2 := by omega
  have hsz : (n + 1 + (2 ^ 32 - 1)) % 2 ^ 32 = n := by omega
  have hloop := motionLoop_alloc M s1 s2 (n + 1) (by omega) n (n + 1) 1 []
    (resizeVector out n) [] [] (by omega) (by omega) (length_resizeVector out n)
    (by simp only [List.length_nil]; omega)
  simp only [List.length_nil, List.nil_append, List.append_nil, Nat.zero_add] at hloop
  simp only [getMotionStates, hc, hnot, if_false, if_true, hsz, Bool.false_eq_true,
    Option.some_bind, Option.bind_eq_bind, false_and, and_false]
  rw [hloop]
  simp

/-- C5 (amended): for every interior count `n` with `1 ≤ n < 2 ^ 32 - 1`,
`getMotionStates(s1, s2, out, n, endpoints = false, alloc = true)` returns `n`
and leaves `out` with exactly `n` entries, `out[j - 1]` holding
`interpolate(s1, s2, t)` for the `double` quotient `t` of `j` and `n + 1`,
`1 ≤ j ≤ n`; the parameters passed to `interpolate` are these quotients in
this order: each is within `2 ^ -54` of `j / (n + 1)` (they are evenly spaced
up to rounding), they are strictly increasing, and they are strictly between
0 and 1. -/
theorem getMotionStates_interior_alloc {σ : Type} (M : StateManifold σ) (s1 s2 : σ)
    (out : StateVector σ) (n : Nat) (h1 : 1 ≤ n) (h2 : n < 2 ^ 32 - 1) :
    ∃ r, getMotionStates M s1 s2 out n false true = some r ∧
      r.added = n ∧ r.states.length = n ∧
      (∀ j, 1 ≤ j → j ≤ n →
        r.states[j - 1]? = some (some (M.interpolate s1 s2 (divDouble j (n + 1))))) ∧
      r.ts = (List.range' 1 n).map (fun j : Nat => divDouble j (n + 1)) ∧
      (∀ j, 1 ≤ j → j ≤ n →
        r.ts[j - 1]? = some (divDouble j (n + 1)) ∧
        |divDouble j (n + 1) - (j : ℚ) / ((n + 1 : Nat) : ℚ)| ≤ 1 / 2 ^ 54) ∧
      (∀ t ∈ r.ts, 0 < t ∧ t < 1) ∧
      r.ts.Pairwise (fun a b => a < b) := by
  refine ⟨_, getMotionStates_interior_alloc_run M s1 s2 out n h1 h2, rfl, by simp, ?_, rfl,
    ?_, ?_, ?_⟩
  · intro j hj1 hjn
    obtain ⟨i, rfl⟩ : ∃ i, j = i + 1 := ⟨j - 1, by omega⟩
    have hi : i < ((List.range' 1 n).map
        (fun j : Nat => some (M.interpolate s1 s2 (divDouble j (n + 1))))).length := by
      simp only [List.length_map, List.length_range']
      omega
    simp only [Nat.add_sub_cancel]
    rw [List.getElem?_eq_getElem hi]
    simp only [List.getElem_map, List.getElem_range', Nat.one_mul]
    rw [Nat.add_comm 1 i]
  · intro j hj1 hjn
    obtain ⟨i, rfl⟩ : ∃ i, j = i + 1 := ⟨j - 1, by omega⟩
    have hi : i < ((List.range' 1 n).map (fun j : Nat => divDouble j (n + 1))).length := by
      simp only [List.length_map, List.length_range']
      omega
    refine ⟨?_, divDouble_near (i + 1) (n + 1) (by omega) (by omega)⟩
    simp only [Nat.add_sub_cancel]
    rw [List.getElem?_eq_getElem hi]
    simp only [List.getElem_map, List.getElem_range', Nat.one_mul]
    rw [Nat.add_comm 1 i]
  · intro t ht
    simp only [List.mem_map, List.mem_range'_1] at ht
    obtain ⟨j, ⟨hj1, hjn⟩, rfl⟩ := ht
    exact divDouble_bounds j (n + 1) hj1 (by omega) (by omega)
  · rw [List.pairwise_map]
    refine (List.Pairwise.and_mem.mp (List.pairwise_lt_range' 1 n)).imp ?_
    rintro a b ⟨ha, hb, hab⟩
    simp only [List.mem_range'_1] at ha hb
    exact divDouble_strictMono a b (n + 1) ha.1 hab (by omega) (by omega)

/-- Witness for C5: three interior states between `[0]` and `[4]` on the 1-D
Euclidean manifold, for the parameters `1/4, 1/2, 3/4`, which are exact. -/
theorem getMotionStates_interior_alloc_witness :
    (1 ≤ 3 ∧ 3 < 2 ^ 32 - 1) ∧
    ∃ r, getMotionStates (RealVectorStateManifold 1 0 10) [0] [4] [] 3 false true = some r ∧
      r.added = 3 ∧ r.states.length = 3 ∧ r.ts = [1 / 4, 1 / 2, 3 / 4] :=
  ⟨⟨by decide, by decide⟩,
    match getMotionStates_interior_alloc (RealVectorStateManifold 1 0 10) [0] [4] [] 3
      (by decide) (by decide) with
    | ⟨r, hr, hadd, hlen, _, hts, _⟩ =>
      ⟨r, hr, hadd, hlen, by
        rw [hts]
        simp only [List.range', List.map_cons, List.map_nil, divDouble_quarters.1,
          divDouble_quarters.2.1, divDouble_quarters.2.2]⟩⟩

/-- Counterexample to C5 as stated: for `n = 9` the first three parameters
are the `double` values of `1/10`, `2/10` and `3/10`; the first two are not
`1/10` apart, and the second gap differs from the first: the parameters are
not evenly spaced. -/
theorem getMotionStates_interior_alloc_counterexample :
    (1 ≤ 9 ∧ 9 < 2 ^ 32 - 1) ∧
    ∃ r a b c, getMotionStates (RealVectorStateManifold 1 0 10) [0] [4] [] 9 false true
        = some r ∧
      r.ts[0]? = some a ∧ r.ts[1]? = some b ∧ r.ts[2]? = some c ∧
      b - a ≠ 1 / 10 ∧ c - b ≠ b - a := by
  refine ⟨⟨by decide, by decide⟩, _, divDouble 1 10, divDouble 2 10, divDouble 3 10,
    getMotionStates_interior_alloc_run (RealVectorStateManifold 1 0 10) [0] [4] [] 9
      (by decide) (by decide), ?_, ?_, ?_, ?_, ?_⟩
  · simp [List.range']
  · simp [List.range']
  · simp [List.range']
  · rw [divDouble_tenths.1, divDouble_tenths.2.1]
    norm_num
  · rw [divDouble_tenths.1, divDouble_tenths.2.1, divDouble_tenths.2.2]
    norm_num

theorem searchValidNearby_unfold {σ δ ρ : Type} (M : StateManifold σ)
    (isValid : σ → Bool) (sampleUniformNear : ρ → σ → δ → σ × ρ) (ss : ρ)
    (state near : σ) (distance : δ) (attempts : Nat) :
    searchValidNearby M isValid sampleUniformNear ss state near distance attempts =
      if isValid (repairedNear M near) = true then
        { result := true, state := repairedNear M near, anchors := [], samples := [] }
      else
        searchLoop isValid sampleUniformNear (repairedNear M near) distance attempts ss
          { result := false, state := repairedNear M near, anchors := [], samples := [] } := by
  show (if (!isValid (repairedNear M near)) = true then
        searchLoop isValid sampleUniformNear (repairedNear M near) distance attempts ss
          { result := isValid (repairedNear M near), state := repairedNear M near,
            anchors := [], samples := [] }
      else { result := isValid (repairedNear M near), state := repairedNear M near,
             anchors := [], samples := [] }) = _
  cases hv : isValid (repairedNear M near) <;> simp

theorem searchLoop_invariant {σ δ ρ : Type} (isValid : σ → Bool)
    (sampleUniformNear : ρ → σ → δ → σ × ρ) (temp first : σ) (distance : δ) :
    ∀ (remaining : Nat) (ss : ρ) (acc : NearbySearch σ),
      acc.result = isValid acc.state →
      (first :: acc.samples).getLast? = some acc.state →
      (∀ a ∈ acc.anchors, a = temp) →
      (searchLoop isValid sampleUniformNear temp distance remaining ss acc).result =
          isValid (searchLoop isValid sampleUniformNear temp distance remaining ss acc).state ∧
      (first :: (searchLoop isValid sampleUniformNear temp distance remaining ss acc).samples).getLast?
          = some (searchLoop isValid sampleUniformNear temp distance remaining ss acc).state ∧
      (∀ a ∈ (searchLoop isValid sampleUniformNear temp distance remaining ss acc).anchors,
          a = temp) := by
  intro remaining
  induction remaining with
  | zero => intro ss acc h1 h2 h3; exact ⟨h1, h2, h3⟩
  | succ remaining ih =>
    intro ss acc h1 h2 h3
    by_cases hres : acc.result = true
    · simp only [searchLoop, hres, Bool.not_true, Bool.false_eq_true, if_false]
      exact ⟨hres ▸ h1, h2, h3⟩
    · have hres' : acc.result = false := by simpa using hres
      simp only [searchLoop, hres', Bool.not_false, if_true]
      apply ih
      · rfl
      · rw [← List.cons_append, List.getLast?_append]
        simp
      · intro a ha
        rcases List.mem_append.mp ha with h | h
        · exact h3 a h
        · simpa using h

/-- C7 (amended): for every state `near` that satisfies the bounds of the
manifold and that the validity oracle accepts, and for every distance and
number of attempts, `searchValidNearby` returns true, leaves `state` equal to
`near`, and calls `sampleUniformNear` not once. -/
theorem searchValidNearby_valid_in_bounds {σ δ ρ : Type} (M : StateManifold σ)
    (isValid : σ → Bool) (sampleUniformNear : ρ → σ → δ → σ × ρ) (ss : ρ)
    (state near : σ) (distance : δ) (attempts : Nat)
    (hbounds : M.satisfiesBounds near = true) (hvalid : isValid near = true) :
    (searchValidNearby M isValid sampleUniformNear ss state near distance attempts).result = true ∧
    (searchValidNearby M isValid sampleUniformNear ss state near distance attempts).state = near ∧
    (searchValidNearby M isValid sampleUniformNear ss state near distance attempts).anchors = [] ∧
    (searchValidNearby M isValid sampleUniformNear ss state near distance attempts).samples = [] := by
  simp [searchValidNearby, copyState, hbounds, hvalid]

/-- Witness for C7: on the interval `[0, 10]` the state `[5]` is within bounds;
with an oracle that accepts it the search returns at once. -/
theorem searchValidNearby_valid_in_bounds_witness :
    ((RealVectorStateManifold 1 0 10).satisfiesBounds [5] = true ∧
      (fun _ : List ℚ => true) [5] = true) ∧
    (searchValidNearby (RealVectorStateManifold 1 0 10) (fun _ : List ℚ => true)
      (fun (g : Nat) (near : List ℚ) (_ : ℚ) => (near, g + 1)) 0 [0] [5] 1 3).state = [5] :=
  have hb : (RealVectorStateManifold 1 0 10).satisfiesBounds [5] = true := by
    simp [RealVectorStateManifold]
    norm_num
  ⟨⟨hb, rfl⟩,
    (searchValidNearby_valid_in_bounds (RealVectorStateManifold 1 0 10) (fun _ : List ℚ => true)
      (fun (g : Nat) (near : List ℚ) (_ : ℚ) => (near, g + 1)) 0 [0] [5] 1 3 hb rfl).2.1⟩

/-- Counterexample to C7 as stated: on the interval `[0, 10]` the state
`near = [20]` is accepted by the oracle but violates the bounds; `state` is
clamped to `[10]`, which the oracle rejects, so that all 5 attempts are used,
false is returned and `state` differs from `near`. -/
theorem searchValidNearby_valid_counterexample :
    (fun s : List ℚ => decide (s = [20])) [20] = true ∧
    (searchValidNearby (RealVectorStateManifold 1 0 10) (fun s : List ℚ => decide (s = [20]))
      (fun (g : Nat) (near : List ℚ) (_ : ℚ) => (near, g + 1)) 0 [0] [20] 1 5).result = false ∧
    (searchValidNearby (RealVectorStateManifold 1 0 10) (fun s : List ℚ => decide (s = [20]))
      (fun (g : Nat) (near : List ℚ) (_ : ℚ) => (near, g + 1)) 0 [0] [20] 1 5).state ≠ [20] ∧
    (searchValidNearby (RealVectorStateManifold 1 0 10) (fun s : List ℚ => decide (s = [20]))
      (fun (g : Nat) (near : List ℚ) (_ : ℚ) => (near, g + 1)) 0 [0] [20] 1 5).anchors.length
      = 5 := by
  have hb : (RealVectorStateManifold 1 0 10).satisfiesBounds [20] = false := by
    simp [RealVectorStateManifold]
    norm_num
  have he : (RealVectorStateManifold 1 0 10).enforceBounds [20] = [10] := by
    simp [RealVectorStateManifold]
    norm_num
  have hne : ¬ ([10] : List ℚ) = [20] := by norm_num
  refine ⟨by simp, ?_, ?_, ?_⟩ <;>
    simp [searchValidNearby, searchLoop, copyState, hb, he, hne]

/-- C8: for every input and every (pure) validity oracle the boolean returned
by `searchValidNearby` is `isValid` of the content left in `state`; that
content is the last candidate tested, the repaired copy of `near` or the last
sample drawn; so on false `state` holds the last attempted candidate, which is
invalid. -/
theorem searchValidNearby_result_eq_isValid {σ δ ρ : Type} (M : StateManifold σ)
    (isValid : σ → Bool) (sampleUniformNear : ρ → σ → δ → σ × ρ) (ss : ρ)
    (state near : σ) (distance : δ) (attempts : Nat) :
    (searchValidNearby M isValid sampleUniformNear ss state near distance attempts).result =
      isValid (searchValidNearby M isValid sampleUniformNear ss state near distance attempts).state ∧
    (repairedNear M near ::
        (searchValidNearby M isValid sampleUniformNear ss state near distance attempts).samples).getLast?
      = some (searchValidNearby M isValid sampleUniformNear ss state near distance attempts).state ∧
    ((searchValidNearby M isValid sampleUniformNear ss state near distance attempts).result = false →
      isValid (searchValidNearby M isValid sampleUniformNear ss state near distance attempts).state
        = false) := by
  have key :
      (searchValidNearby M isValid sampleUniformNear ss state near distance attempts).result =
        isValid (searchValidNearby M isValid sampleUniformNear ss state near distance attempts).state ∧
      (repairedNear M near ::
          (searchValidNearby M isValid sampleUniformNear ss state near distance attempts).samples).getLast?
        = some (searchValidNearby M isValid sampleUniformNear ss state near distance attempts).state := by
    rw [searchValidNearby_unfold]
    by_cases hv : isValid (repairedNear M near) = true
    · simp [hv]
    · have hv0 : isValid (repairedNear M near) = false := by simpa using hv
      have hinv := searchLoop_invariant isValid sampleUniformNear (repairedNear M near)
        (repairedNear M near) distance attempts ss
        { result := false, state := repairedNear M near, anchors := [], samples := [] }
        hv0.symm rfl (fun a ha => by simp at ha)
      rw [if_neg hv]
      exact ⟨hinv.1, hinv.2.1⟩
  exact ⟨key.1, key.2, fun h => by rw [← key.1]; exact h⟩

/-- Counterexample to C9 as stated: on the interval `[0, 10]` with
`near = [20]` and an oracle that rejects every state, both calls of
`sampleUniformNear` receive the anchor `[10]`, not the value `[20]` of `near`. -/
theorem searchValidNearby_anchor_counterexample :
    (searchValidNearby (RealVectorStateManifold 1 0 10) (fun _ : List ℚ => false)
      (fun (g : Nat) (near : List ℚ) (_ : ℚ) => (near, g + 1)) 0 [0] [20] 1 2).anchors
      = [[10], [10]] ∧
    ¬ ∀ a ∈ (searchValidNearby (RealVectorStateManifold 1 0 10) (fun _ : List ℚ => false)
      (fun (g : Nat) (near : List ℚ) (_ : ℚ) => (near, g + 1)) 0 [0] [20] 1 2).anchors,
      a = [20] := by
  have hb : (RealVectorStateManifold 1 0 10).satisfiesBounds [20] = false := by
    simp [RealVectorStateManifold]
    norm_num
  have he : (RealVectorStateManifold 1 0 10).enforceBounds [20] = [10] := by
    simp [RealVectorStateManifold]
    norm_num
  have hanch : (searchValidNearby (RealVectorStateManifold 1 0 10) (fun _ : List ℚ => false)
      (fun (g : Nat) (near : List ℚ) (_ : ℚ) => (near, g + 1)) 0 [0] [20] 1 2).anchors
      = [[10], [10]] := by
    simp [searchValidNearby, searchLoop, copyState, hb, he]
  refine ⟨hanch, ?_⟩
  rw [hanch]
  intro hall
  have h := hall [10] (by simp)
  norm_num at h

/-- C9 (amended): in `searchValidNearby` every call of `sampleUniformNear`
receives one and the same anchor, the copy of `near` after the repair of its
bounds (`enforceBounds` applied when `near` violates the bounds); when `near`
satisfies the bounds this anchor equals `near`. -/
theorem searchValidNearby_anchor_fixed {σ δ ρ : Type} (M : StateManifold σ)
    (isValid : σ → Bool) (sampleUniformNear : ρ → σ → δ → σ × ρ) (ss : ρ)
    (state near : σ) (distance : δ) (attempts : Nat) :
    (∀ a ∈ (searchValidNearby M isValid sampleUniformNear ss state near distance attempts).anchors,
      a = repairedNear M near) ∧
    (M.satisfiesBounds near = true →
      ∀ a ∈ (searchValidNearby M isValid sampleUniformNear ss state near distance attempts).anchors,
        a = near) := by
  have key : ∀ a ∈
      (searchValidNearby M isValid sampleUniformNear ss state near distance attempts).anchors,
      a = repairedNear M near := by
    rw [searchValidNearby_unfold]
    by_cases hv : isValid (repairedNear M near) = true
    · simp [hv]
    · have hv0 : isValid (repairedNear M near) = false := by simpa using hv
      have hinv := searchLoop_invariant isValid sampleUniformNear (repairedNear M near)
        (repairedNear M near) distance attempts ss
        { result := false, state := repairedNear M near, anchors := [], samples := [] }
        hv0.symm rfl (fun a ha => by simp at ha)
      rw [if_neg hv]
      exact hinv.2.2
  refine ⟨key, ?_⟩
  intro hb a ha
  have := key a ha
  simpa [repairedNear, hb] using this

/-! ## Sampler pool -/

theorem getElem?_resizeVector {σ : Type} (states : StateVector σ) (n i : Nat)
    (hi : i < min states.length n) : (resizeVector states n)[i]? = states[i]? := by
  have h1 : i < (states.take n).length := by
    rw [List.length_take]
    omega
  have h2 : i < n := by omega
  simp only [resizeVector]
  rw [List.getElem?_append_left h1, List.getElem?_take, if_pos h2]

theorem resizeLoop_frame {α κ : Type} (allocStateSampler : κ → α × κ) :
    ∀ (remaining i : Nat) (acc : Resized α κ),
      (resizeLoop allocStateSampler remaining i acc).array.samplers_.length =
          acc.array.samplers_.length ∧
      ∀ m, m < i →
        (resizeLoop allocStateSampler remaining i acc).array.samplers_[m]? =
          acc.array.samplers_[m]? := by
  intro remaining
  induction remaining with
  | zero => intro i acc; exact ⟨rfl, fun _ _ => rfl⟩
  | succ remaining ih =>
    intro i acc
    simp only [resizeLoop]
    obtain ⟨hlen, hframe⟩ := ih (i + 1)
      { array := { samplers_ := acc.array.samplers_.set i (some (allocStateSampler acc.factory).1) },
        factory := (allocStateSampler acc.factory).2,
        allocated := acc.allocated ++ [(allocStateSampler acc.factory).1] }
    refine ⟨?_, ?_⟩
    · rw [hlen]
      simp
    · intro m hm
      rw [hframe m (by omega)]
      exact List.getElem?_set_ne (by omega)

/-- C10: `resize(n)` on a pool of size `m` leaves `size() = n`, and every slot
`i < min(m, n)` holds the very same sampler as before the call. -/
theorem resize_size_and_prefix {α κ : Type} (allocStateSampler : κ → α × κ) (factory : κ)
    (a : StateSamplerArray α) (n : Nat) :
    (StateSamplerArray.resize allocStateSampler factory a n).array.size = n ∧
    ∀ i, i < min a.size n →
      (StateSamplerArray.resize allocStateSampler factory a n).array.samplers_[i]? =
        a.samplers_[i]? := by
  simp only [StateSamplerArray.size]
  by_cases hgt : a.samplers_.length > n
  · simp only [StateSamplerArray.resize, hgt, if_true]
    exact ⟨length_resizeVector _ _, fun i hi => getElem?_resizeVector _ _ _ hi⟩
  · by_cases hlt : a.samplers_.length < n
    · simp only [StateSamplerArray.resize, hgt, hlt, if_true, if_false]
      obtain ⟨hlen, hframe⟩ := resizeLoop_frame allocStateSampler (n - a.samplers_.length)
        a.samplers_.length
        { array := { samplers_ := resizeVector a.samplers_ n }, factory := factory,
          allocated := [] }
      refine ⟨?_, ?_⟩
      · rw [hlen]
        exact length_resizeVector _ _
      · intro i hi
        rw [hframe i (by omega)]
        exact getElem?_resizeVector _ _ _ hi
    · simp only [StateSamplerArray.resize, hgt, hlt, if_false]
      exact ⟨by omega, fun _ _ => trivial⟩

/-! ## Construction and setup -/

theorem setup_unfold {μ σ : Type} (manifold : ManifoldObject μ) (si : SpaceInformation μ σ) :
    si.setup manifold =
      match manifold.setup si.stateManifold_ with
      | Except.error e => (Except.error e, si.withDefaults)
      | Except.ok m =>
        if manifold.getDimension m ≤ 0 then
          (Except.error
            { what := "The dimension of the state manifold we plan in must be > 0" },
            { si.withDefaults with stateManifold_ := m })
        else (Except.ok (), { si.withDefaults with stateManifold_ := m, setup_ := true }) := by
  obtain ⟨m₀, checker, validator, flag, warnings⟩ := si
  cases checker <;> cases validator <;>
    simp only [SpaceInformation.setup, SpaceInformation.withDefaults, Option.isNone_none,
      Option.isNone_some, if_true, if_false, Option.getD_none, Option.getD_some,
      Bool.false_eq_true]

/-- C11: when the manifold reports dimension 0 to `setup()`, the call fails
with an `Exception` (the one of line 64 when the manifold's own `setup`
returns) and does not mark the space ready: `isSetup()` answers what it
answered before, so it is still false afterwards for a space that was not
ready. -/
theorem setup_dimension_zero {μ σ : Type} (manifold : ManifoldObject μ)
    (si : SpaceInformation μ σ)
    (hdim : ∀ m, manifold.setup si.stateManifold_ = Except.ok m → manifold.getDimension m = 0) :
    (∃ e, (si.setup manifold).1 = Except.error e) ∧
    (∀ m, manifold.setup si.stateManifold_ = Except.ok m →
      (si.setup manifold).1 = Except.error
        { what := "The dimension of the state manifold we plan in must be > 0" }) ∧
    (si.setup manifold).2.isSetup = si.isSetup ∧
    (si.isSetup = false → (si.setup manifold).2.isSetup = false) := by
  rw [setup_unfold]
  cases hset : manifold.setup si.stateManifold_ with
  | error e =>
    exact ⟨⟨e, rfl⟩, (fun m hm => by cases hm), rfl, fun h => h⟩
  | ok m =>
    have hzero : manifold.getDimension m ≤ 0 := by rw [hdim m hset]
    simp only [hzero, if_true]
    exact ⟨⟨_, rfl⟩, fun _ _ => trivial, rfl, fun h => h⟩

/-- Witness for C11: a freshly constructed space over a manifold of dimension
0 whose own `setup` returns; `setup()` throws and `isSetup()` stays false. -/
theorem setup_dimension_zero_witness :
    (∀ m, (ManifoldObject.mk (fun d : Nat => Except.ok d) (fun d => d)).setup 0 = Except.ok m →
      (ManifoldObject.mk (fun d : Nat => Except.ok d) (fun d => d)).getDimension m = 0) ∧
    (SpaceInformation.setup (ManifoldObject.mk (fun d : Nat => Except.ok d) (fun d => d))
      ({ stateManifold_ := 0, stateValidityChecker_ := none,
         motionValidator_ := some MotionValidator.discrete, setup_ := false,
         warnings := [] } : SpaceInformation Nat Nat)).2.isSetup = false :=
  have hdim : ∀ m, (ManifoldObject.mk (fun d : Nat => Except.ok d) (fun d => d)).setup 0
      = Except.ok m →
      (ManifoldObject.mk (fun d : Nat => Except.ok d) (fun d => d)).getDimension m = 0 := by
    intro m hm
    cases hm
    rfl
  ⟨hdim,
    (setup_dimension_zero (ManifoldObject.mk (fun d : Nat => Except.ok d) (fun d => d))
      ({ stateManifold_ := 0, stateValidityChecker_ := none,
         motionValidator_ := some MotionValidator.discrete, setup_ := false,
         warnings := [] } : SpaceInformation Nat Nat) hdim).2.2.2 rfl⟩

/-- C12: for a space with no validity checker set, over a manifold whose own
`setup` returns and whose dimension is positive, `setup()` returns normally,
`isSetup()` becomes true, and the checker installed is the always-valid
default: `isValid(s)` is true for every state `s`. -/
theorem setup_installs_all_valid {μ σ : Type} (manifold : ManifoldObject μ)
    (si : SpaceInformation μ σ) (m : μ)
    (hnone : si.stateValidityChecker_ = none)
    (hok : manifold.setup si.stateManifold_ = Except.ok m)
    (hdim : 0 < manifold.getDimension m) :
    (si.setup manifold).1 = Except.ok () ∧
    (si.setup manifold).2.isSetup = true ∧
    (si.setup manifold).2.stateValidityChecker_ = some StateValidityChecker.allValid ∧
    ∀ s, (si.setup manifold).2.isValid s = some true := by
  have hpos : ¬ manifold.getDimension m ≤ 0 := by omega
  rw [setup_unfold]
  simp only [hok, hpos, if_false]
  refine ⟨trivial, rfl, ?_, ?_⟩
  · simp [SpaceInformation.withDefaults, hnone]
  · intro s
    simp [SpaceInformation.isValid, SpaceInformation.withDefaults, hnone,
      StateValidityChecker.isValid]

/-- Witness for C12: a freshly constructed space over a manifold of dimension
3; after `setup()` the space is ready and accepts the state `7`. -/
theorem setup_installs_all_valid_witness :
    (SpaceInformation.setup (ManifoldObject.mk (fun d : Nat => Except.ok d) (fun d => d))
      ({ stateManifold_ := 3, stateValidityChecker_ := none,
         motionValidator_ := some MotionValidator.discrete, setup_ := false,
         warnings := [] } : SpaceInformation Nat Nat)).2.isSetup = true ∧
    (SpaceInformation.setup (ManifoldObject.mk (fun d : Nat => Except.ok d) (fun d => d))
      ({ stateManifold_ := 3, stateValidityChecker_ := none,
         motionValidator_ := some MotionValidator.discrete, setup_ := false,
         warnings := [] } : SpaceInformation Nat Nat)).2.isValid 7 = some true :=
  have h := setup_installs_all_valid (ManifoldObject.mk (fun d : Nat => Except.ok d) (fun d => d))
      ({ stateManifold_ := 3, stateValidityChecker_ := none,
         motionValidator_ := some MotionValidator.discrete, setup_ := false,
         warnings := [] } : SpaceInformation Nat Nat) 3 rfl rfl (by decide)
  ⟨h.2.1, h.2.2.2 7⟩

/-- C13: constructing a `SpaceInformation` throws an `Exception` exactly when
the manifold pointer is null; for every non-null manifold the construction
returns an object that is not ready (`isSetup()` is false). -/
theorem construct_fails_iff_null {μ σ : Type} (manifold : Option μ) :
    ((∃ e, (SpaceInformation.construct manifold : Except Exception (SpaceInformation μ σ))
        = Except.error e) ↔ manifold = none) ∧
    (∀ m, manifold = some m →
      ∃ si : SpaceInformation μ σ,
        SpaceInformation.construct manifold = Except.ok si ∧ si.isSetup = false ∧
        si.stateManifold_ = m) := by
  cases manifold with
  | none =>
    refine ⟨⟨fun _ => rfl, fun _ => ⟨_, rfl⟩⟩, ?_⟩
    intro m hm
    cases hm
  | some m₀ =>
    refine ⟨⟨?_, fun h => by cases h⟩, ?_⟩
    · rintro ⟨e, he⟩
      simp [SpaceInformation.construct] at he
    · intro m hm
      cases hm
      exact ⟨_, rfl, rfl, rfl⟩

/-- C20: `setup()` keeps a validity checker and a motion validator that are
installed; and when the manifold's own `setup` returns and is idempotent, a
second `setup()` has the outcome of the first and leaves the whole object,
so the validity checker, the motion validator and the ready flag, exactly as
the first call left it. -/
theorem setup_idempotent {μ σ : Type} (manifold : ManifoldObject μ)
    (si : SpaceInformation μ σ) (m : μ)
    (hok : manifold.setup si.stateManifold_ = Except.ok m)
    (hidem : manifold.setup m = Except.ok m) :
    (∀ c, si.stateValidityChecker_ = some c →
      (si.setup manifold).2.stateValidityChecker_ = some c) ∧
    (∀ v, si.motionValidator_ = some v → (si.setup manifold).2.motionValidator_ = some v) ∧
    ((si.setup manifold).2.setup manifold).1 = (si.setup manifold).1 ∧
    ((si.setup manifold).2.setup manifold).2 = (si.setup manifold).2 ∧
    ((si.setup manifold).2.setup manifold).2.stateValidityChecker_ =
      (si.setup manifold).2.stateValidityChecker_ ∧
    ((si.setup manifold).2.setup manifold).2.motionValidator_ =
      (si.setup manifold).2.motionValidator_ ∧
    ((si.setup manifold).2.setup manifold).2.isSetup = (si.setup manifold).2.isSetup := by
  have hsecond : ((si.setup manifold).2.setup manifold) = si.setup manifold := by
    rw [setup_unfold manifold si]
    simp only [hok]
    by_cases hzero : manifold.getDimension m ≤ 0
    · simp only [hzero, if_true]
      rw [setup_unfold]
      simp only [hidem, hzero, if_true]
      rfl
    · simp only [hzero, if_false]
      rw [setup_unfold]
      simp only [hidem, hzero, if_false]
      rfl
  refine ⟨?_, ?_, ?_, ?_, ?_, ?_, ?_⟩
  · intro c hc
    rw [setup_unfold]
    simp only [hok]
    split_ifs <;> simp [SpaceInformation.withDefaults, hc]
  · intro v hv
    rw [setup_unfold]
    simp only [hok]
    split_ifs <;> simp [SpaceInformation.withDefaults, hv]
  all_goals rw [hsecond]

/-- Witness for C20: a space with a caller's checker over a manifold of
dimension 3; the checker survives `setup()`, and a second `setup()` changes
nothing. -/
theorem setup_idempotent_witness :
    ((ManifoldObject.mk (fun d : Nat => Except.ok d) (fun d => d)).setup 3 = Except.ok 3) ∧
    ((SpaceInformation.setup (ManifoldObject.mk (fun d : Nat => Except.ok d) (fun d => d))
      (SpaceInformation.setup (ManifoldObject.mk (fun d : Nat => Except.ok d) (fun d => d))
        ({ stateManifold_ := 3,
           stateValidityChecker_ := some (StateValidityChecker.custom (fun n => n != 7)),
           motionValidator_ := none, setup_ := false,
           warnings := [] } : SpaceInformation Nat Nat)).2).2.isSetup =
      (SpaceInformation.setup (ManifoldObject.mk (fun d : Nat => Except.ok d) (fun d => d))
        ({ stateManifold_ := 3,
           stateValidityChecker_ := some (StateValidityChecker.custom (fun n => n != 7)),
           motionValidator_ := none, setup_ := false,
           warnings := [] } : SpaceInformation Nat Nat)).2.isSetup) :=
  ⟨rfl,
    (setup_idempotent (ManifoldObject.mk (fun d : Nat => Except.ok d) (fun d => d))
      ({ stateManifold_ := 3,
         stateValidityChecker_ := some (StateValidityChecker.custom (fun n => n != 7)),
         motionValidator_ := none, setup_ := false,
         warnings := [] } : SpaceInformation Nat Nat) 3 rfl rfl).2.2.2.2.2.2⟩

/-! ## Bisection: what can be said of the calls that return -/

theorem bisectLoopLog_fst {σ : Type} (isValid : σ → Bool) (states : List σ) :
    ∀ (fuel : Nat) (pos : List (Int × Int)) (log : List Nat),
      (bisectLoopLog isValid states fuel pos log).1 = bisectLoop isValid states fuel pos := by
  intro fuel
  induction fuel with
  | zero =>
    intro pos log
    cases pos <;> rfl
  | succ fuel ih =>
    intro pos log
    cases pos with
    | nil => rfl
    | cons x rest =>
      simp only [bisectLoopLog, bisectLoop]
      cases h1 : inInt32 (x.1 + x.2) with
      | false => simp
      | true =>
        simp only [Bool.not_true, Bool.false_eq_true, if_false]
        by_cases h2 : Int.tdiv (x.1 + x.2) 2 < 0
        · simp [h2]
        · simp only [h2, if_false]
          cases states[(Int.tdiv (x.1 + x.2) 2).toNat]? with
          | none => simp
          | some s =>
            cases hv : isValid s with
            | false => simp [hv]
            | true =>
              simp only [hv, Bool.not_true, Bool.false_eq_true, if_false]
              exact ih _ _

/-- The logged variant returns what `checkMotion` returns. -/
theorem checkMotionLog_fst {σ : Type} (isValid : σ → Bool) (states : List σ)
    (count fuel : Nat) :
    (checkMotionLog isValid states count fuel).1 = checkMotion isValid states count fuel := by
  simp only [checkMotionLog, checkMotion]
  by_cases hlen : states.length < count
  · simp only [hlen, if_true]
  · simp only [hlen, if_false]
    by_cases c0 : count > 0
    · simp only [c0, if_true]
      by_cases c1 : count > 1
      · simp only [c1, if_true]
        cases states.head? with
        | none => rfl
        | some first =>
          cases hv : isValid first with
          | false => simp [hv]
          | true =>
            simp only [hv, Bool.not_true, Bool.false_eq_true, if_false]
            cases states[count - 1]? with
            | none => rfl
            | some last =>
              cases hl : isValid last with
              | false => simp [hl]
              | true =>
                simp only [hl, Bool.not_true, Bool.false_eq_true, if_false]
                by_cases c2 : count > 2
                · simp only [c2, if_true]
                  exact bisectLoopLog_fst isValid states _ _ _
                · simp only [c2, if_false]
      · simp only [c1, if_false]
        cases states.head? <;> rfl
    · simp only [c0, if_false]

/-- The linear scan over states that exist always returns, with true exactly
when all the states it scans are valid. -/
theorem checkMotionScan_total {σ : Type} (isValid : σ → Bool) (states : List σ) (idx : Nat) :
    ∀ (n i : Nat), i + n ≤ states.length →
      ∃ b k, checkMotionScan isValid states idx n i = some (b, k) ∧
        (b = true ↔ ∀ m s, i ≤ m → m < i + n → states[m]? = some s → isValid s = true) := by
  intro n
  induction n with
  | zero =>
    intro i _
    exact ⟨true, idx, rfl, ⟨fun _ m s h1 h2 => by omega, fun _ => rfl⟩⟩
  | succ n ih =>
    intro i hlen
    have hi : i < states.length := by omega
    have hget : states[i]? = some states[i] := List.getElem?_eq_getElem hi
    cases hv : isValid states[i] with
    | false =>
      refine ⟨false, i, by simp [checkMotionScan, hget, hv], ⟨(fun h => by cases h), ?_⟩⟩
      intro hall
      have := hall i _ (le_refl i) (by omega) hget
      rw [hv] at this
      cases this
    | true =>
      obtain ⟨b, k, hrun, hiff⟩ := ih (i + 1) (by omega)
      refine ⟨b, k, by simp [checkMotionScan, hget, hv, hrun], ?_⟩
      rw [hiff]
      constructor
      · intro hall m s h1 h2 hs
        rcases Nat.eq_or_lt_of_le h1 with heq | hlt
        · subst heq
          rw [hget] at hs
          cases hs
          exact hv
        · exact hall m s (by omega) (by omega) hs
      · intro hall m s h1 h2 hs
        exact hall m s (by omega) (by omega) hs

/-- The calls of the bisection `checkMotion` that are decided before the work
queue is used return, with true exactly when all the states are valid. -/
theorem checkMotion_early {σ : Type} (isValid : σ → Bool) (states : List σ)
    (count : Nat) (hlen : count ≤ states.length)
    (hcase : count ≤ 2 ∨ (2 ≤ count ∧
      ((∃ s, states[0]? = some s ∧ isValid s = false) ∨
        (∃ s, states[count - 1]? = some s ∧ isValid s = false)))) :
    ∃ b, (∀ fuel, checkMotion isValid states count fuel = Run.done b) ∧
      (b = true ↔ ∀ i s, i < count → states[i]? = some s → isValid s = true) := by
  have hnot : ¬ states.length < count := by omega
  have hhead : states.head? = states[0]? := List.head?_eq_getElem? states
  rcases Nat.eq_zero_or_pos count with hc0 | hcpos
  · subst hc0
    exact ⟨true, fun fuel => by simp [checkMotion], ⟨fun _ i s hi => by omega, fun _ => rfl⟩⟩
  have b0 : 0 < states.length := by omega
  have h0 : states[0]? = some states[0] := List.getElem?_eq_getElem b0
  rcases Nat.eq_or_lt_of_le hcpos with hc1 | hc2
  · -- count = 1
    have hcount : count = 1 := hc1.symm
    subst hcount
    refine ⟨isValid states[0], fun fuel => by simp [checkMotion, hhead, h0, hnot], ?_⟩
    constructor
    · intro hv i s hi hs
      have hi0 : i = 0 := by omega
      subst hi0
      rw [h0] at hs
      cases hs
      exact hv
    · intro hall
      exact hall 0 _ (by omega) h0
  · -- count ≥ 2
    have c0 : count > 0 := by omega
    have c1 : count > 1 := by omega
    have bl : count - 1 < states.length := by omega
    have hl : states[count - 1]? = some states[count - 1] := List.getElem?_eq_getElem bl
    cases hv0 : isValid states[0] with
    | false =>
      refine ⟨false, fun fuel => by simp [checkMotion, hhead, h0, hnot, c0, c1, hv0],
        ⟨(fun h => by cases h), ?_⟩⟩
      intro hall
      have := hall 0 _ (by omega) h0
      rw [hv0] at this
      cases this
    | true =>
      cases hvl : isValid states[count - 1] with
      | false =>
        refine ⟨false, fun fuel => by simp [checkMotion, hhead, h0, hl, hnot, c0, c1, hv0, hvl],
          ⟨(fun h => by cases h), ?_⟩⟩
        intro hall
        have := hall (count - 1) _ (by omega) hl
        rw [hvl] at this
        cases this
      | true =>
        -- both endpoints valid: only count = 2 is left
        have hcount : count = 2 := by
          rcases hcase with hle | ⟨_, ⟨s, hs, hbad⟩ | ⟨s, hs, hbad⟩⟩
          · omega
          · rw [h0] at hs
            cases hs
            rw [hv0] at hbad
            cases hbad
          · rw [hl] at hs
            cases hs
            rw [hvl] at hbad
            cases hbad
        subst hcount
        refine ⟨true, fun fuel => by simp [checkMotion, hhead, h0, hl, hnot, hv0, hvl],
          ⟨fun _ i s hi hs => ?_, fun _ => rfl⟩⟩
        rcases Nat.eq_zero_or_pos i with hi0 | hipos
        · subst hi0
          rw [h0] at hs
          cases hs
          exact hv0
        · have hi1 : i = 1 := by omega
          subst hi1
          rw [hl] at hs
          cases hs
          exact hvl

/-- C15: where the bisection `checkMotion` decides before bisecting
(`count ≤ 2`, or `count ≥ 2` with `states[0]` or `states[count-1]` invalid) it
returns, and returns the boolean of the linear scan. With `count = 0` it
returns true without a call of the oracle, with `count = 1` it returns
`isValid(states[0])` after that one call, and with an invalid endpoint it
returns false after calls on index 0, or on indices 0 and `count - 1`, only. -/
theorem checkMotion_early_agrees_with_scan {σ : Type} (isValid : σ → Bool)
    (states : List σ) (count idx : Nat) (hlen : count ≤ states.length)
    (hcase : count ≤ 2 ∨ (2 ≤ count ∧
      ((∃ s, states[0]? = some s ∧ isValid s = false) ∨
        (∃ s, states[count - 1]? = some s ∧ isValid s = false)))) :
    (∃ b k, (∀ fuel, checkMotion isValid states count fuel = Run.done b) ∧
      checkMotionFirstInvalid isValid states count idx = some (b, k)) ∧
    (count = 0 → ∀ fuel, checkMotionLog isValid states count fuel = (Run.done true, [])) ∧
    (count = 1 → ∀ s, states[0]? = some s →
      ∀ fuel, checkMotionLog isValid states count fuel = (Run.done (isValid s), [0])) ∧
    (2 ≤ count → ∀ s, states[0]? = some s → isValid s = false →
      ∀ fuel, checkMotionLog isValid states count fuel = (Run.done false, [0])) ∧
    (2 ≤ count → ∀ s t, states[0]? = some s → isValid s = true →
      states[count - 1]? = some t → isValid t = false →
      ∀ fuel, checkMotionLog isValid states count fuel = (Run.done false, [0, count - 1])) := by
  have hnot : ¬ states.length < count := by omega
  have hhead : states.head? = states[0]? := List.head?_eq_getElem? states
  refine ⟨?_, ?_, ?_, ?_, ?_⟩
  · obtain ⟨b, hrun, hb⟩ := checkMotion_early isValid states count hlen hcase
    obtain ⟨b', k, hscan, hb'⟩ := checkMotionScan_total isValid states idx count 0 (by omega)
    have hbb : b' = b := by
      have hiff : b' = true ↔ b = true := by
        rw [hb, hb']
        constructor
        · intro h i s hi hs
          exact h i s (Nat.zero_le i) (by omega) hs
        · intro h m s _ hm hs
          exact h m s (by omega) hs
      cases b <;> cases b' <;> simp_all
    refine ⟨b, k, hrun, ?_⟩
    simp only [checkMotionFirstInvalid, hnot, if_false]
    rw [hscan, hbb]
  · intro hc fuel
    subst hc
    simp [checkMotionLog]
  · intro hc s hs fuel
    subst hc
    simp [checkMotionLog, hhead, hs, hnot]
  · intro hc s hs hbad fuel
    have c0 : count > 0 := by omega
    have c1 : count > 1 := by omega
    simp [checkMotionLog, hhead, hs, hnot, c0, c1, hbad]
  · intro hc s t hs hv ht hbad fuel
    have c0 : count > 0 := by omega
    have c1 : count > 1 := by omega
    simp [checkMotionLog, hhead, hs, ht, hnot, c0, c1, hv, hbad]

/-- Witness for C15: on `[7, 1, 2, 3]`, whose first state is invalid, both
variants return false, and the bisection asks the oracle about index 0 only. -/
theorem checkMotion_early_agrees_with_scan_witness :
    (4 ≤ ([7, 1, 2, 3] : List Nat).length ∧
      (2 ≤ 4 ∧ ∃ s, ([7, 1, 2, 3] : List Nat)[0]? = some s ∧ (fun n : Nat => n != 7) s = false)) ∧
    ∀ fuel, checkMotionLog (fun n : Nat => n != 7) [7, 1, 2, 3] 4 fuel = (Run.done false, [0]) :=
  ⟨⟨by decide, by decide, 7, rfl, rfl⟩,
    (checkMotion_early_agrees_with_scan (fun n : Nat => n != 7) [7, 1, 2, 3] 4 0 (by decide)
      (Or.inr ⟨by decide, Or.inl ⟨7, rfl, rfl⟩⟩)).2.2.2.1 (by decide) 7 rfl rfl⟩

theorem bisectLoopLog_front_stays {σ : Type} (isValid : σ → Bool) (states : List σ)
    (c : Nat) (s : σ) (hc : c < 2 ^ 31) (hs : states[c / 2]? = some s)
    (hv : isValid s = true) :
    ∀ (fuel : Nat) (rest : List (Int × Int)) (log : List Nat),
      bisectLoopLog isValid states fuel (((0 : Int), (c : Int)) :: rest) log =
        (Run.outOfFuel, log ++ List.replicate fuel (c / 2)) := by
  have hin : inInt32 ((0 : Int) + (c : Int)) = true := by
    simp only [inInt32, Bool.and_eq_true, decide_eq_true_eq]
    constructor <;> omega
  have hmid : Int.tdiv ((0 : Int) + (c : Int)) 2 = ((c / 2 : Nat) : Int) := by
    rw [zero_add]
    exact (Int.ofNat_tdiv c 2).symm
  intro fuel
  induction fuel with
  | zero =>
    intro rest log
    simp [bisectLoopLog]
  | succ fuel ih =>
    intro rest log
    have hneg : ¬ ((c / 2 : Nat) : Int) < 0 := by omega
    simp only [bisectLoopLog, hin, hmid, hneg, Int.toNat_ofNat, hs, hv, Bool.not_true,
      Bool.false_eq_true, if_false, List.cons_append]
    have hrep : log ++ [c / 2] ++ List.replicate fuel (c / 2) =
        log ++ List.replicate (fuel + 1) (c / 2) := by
      rw [List.append_assoc]
      rfl
    split_ifs <;> exact (ih _ _).trans (by rw [hrep])

/-- C16 (defect of the code): on a sequence of `count ≥ 3` states that are
all valid (with `count - 1` in the range of `int`), the work queue of the
bisection `checkMotion` never empties, since no interval is popped: whatever
the budget of iterations the loop is still running, and after `fuel`
iterations the oracle has been called on indices 0 and `count - 1` and then
`fuel` times on the one index `(count - 1) / 2`. -/
theorem checkMotionLog_queue_never_empties {σ : Type} (isValid : σ → Bool)
    (states : List σ) (count : Nat) (h3 : 3 ≤ count) (hlen : count ≤ states.length)
    (hsmall : count ≤ 2 ^ 31)
    (hall : ∀ i s, i < count → states[i]? = some s → isValid s = true) :
    ∀ fuel, checkMotionLog isValid states count fuel =
      (Run.outOfFuel, 0 :: (count - 1) :: List.replicate fuel ((count - 1) / 2)) := by
  intro fuel
  have hnot : ¬ states.length < count := by omega
  have b0 : 0 < states.length := by omega
  have bl : count - 1 < states.length := by omega
  have bm : (count - 1) / 2 < states.length := by omega
  have h0 : states[0]? = some states[0] := List.getElem?_eq_getElem b0
  have hl : states[count - 1]? = some states[count - 1] := List.getElem?_eq_getElem bl
  have hm : states[(count - 1) / 2]? = some states[(count - 1) / 2] :=
    List.getElem?_eq_getElem bm
  have hhead : states.head? = some states[0] := by
    rw [← h0]; exact (List.head?_eq_getElem? states)
  have hto : toInt32 (count - 1) = ((count - 1 : Nat) : Int) := by
    have hmod : (count - 1) % 2 ^ 32 = count - 1 := Nat.mod_eq_of_lt (by omega)
    have hlt : count - 1 < 2 ^ 31 := by omega
    simp only [toInt32, hmod, hlt, if_true]
  have c0 : count > 0 := by omega
  have c1 : count > 1 := by omega
  have c2 : count > 2 := by omega
  simp only [checkMotionLog, hnot, c0, c1, c2, hhead, hl, hall 0 _ (by omega) h0,
    hall (count - 1) _ (by omega) hl, hto, if_true, if_false, Bool.not_true,
    Bool.false_eq_true]
  rw [bisectLoopLog_front_stays isValid states (count - 1) _ (by omega) hm
    (hall _ _ (by omega) hm) fuel [] [0, count - 1]]
  rfl

/-- Witness for C16: on three valid states the oracle is asked about index 1
again and again; after 5 iterations the loop is still running. -/
theorem checkMotionLog_queue_never_empties_witness :
    (3 ≤ ([1, 2, 3] : List Nat).length ∧
      ∀ i s, i < 3 → ([1, 2, 3] : List Nat)[i]? = some s → (fun _ : Nat => true) s = true) ∧
    checkMotionLog (fun _ : Nat => true) [1, 2, 3] 3 5 =
      (Run.outOfFuel, [0, 2, 1, 1, 1, 1, 1]) :=
  ⟨⟨by decide, fun _ _ _ _ => rfl⟩,
    checkMotionLog_queue_never_empties (fun _ : Nat => true) [1, 2, 3] 3
      (by decide) (by decide) (by decide) (fun _ _ _ _ => rfl) 5⟩

/-! ## Attempt budget of the search -/

theorem length_sampleSequence {σ δ ρ : Type} (sampleUniformNear : ρ → σ → δ → σ × ρ)
    (temp : σ) (distance : δ) :
    ∀ (n : Nat) (ss : ρ), (sampleSequence sampleUniformNear temp distance n ss).length = n := by
  intro n
  induction n with
  | zero => intro ss; rfl
  | succ n ih =>
    intro ss
    simp only [sampleSequence, List.length_cons, ih]

theorem searchLoop_of_result {σ δ ρ : Type} (isValid : σ → Bool)
    (sampleUniformNear : ρ → σ → δ → σ × ρ) (temp : σ) (distance : δ) (n : Nat) (ss : ρ)
    (acc : NearbySearch σ) (h : acc.result = true) :
    searchLoop isValid sampleUniformNear temp distance n ss acc = acc := by
  cases n with
  | zero => rfl
  | succ n => simp [searchLoop, h]

/-- A list either has a first entry that `p` accepts, or none at all. -/
theorem first_accepted_or_none {σ : Type} (p : σ → Bool) :
    ∀ l : List σ,
      (∃ (k : Nat) (s : σ), l[k]? = some s ∧ p s = true ∧
        ∀ (i : Nat) (t : σ), i < k → l[i]? = some t → p t = false) ∨
      (∀ s ∈ l, p s = false) := by
  intro l
  induction l with
  | nil => exact Or.inr (fun s hs => by simp at hs)
  | cons a l ih =>
    cases ha : p a with
    | true =>
      exact Or.inl ⟨0, a, by simp, ha, fun i t hi _ => absurd hi (Nat.not_lt_zero i)⟩
    | false =>
      rcases ih with ⟨k, s, hk, hs, hbefore⟩ | hnone
      · refine Or.inl ⟨k + 1, s, by simpa using hk, hs, ?_⟩
        intro i t hi ht
        cases i with
        | zero =>
          simp at ht
          rw [← ht]
          exact ha
        | succ i =>
          exact hbefore i t (by omega) (by simpa using ht)
      · refine Or.inr ?_
        intro s hs
        rcases List.mem_cons.mp hs with heq | hmem
        · rw [heq]; exact ha
        · exact hnone s hmem

/-- The retry loop, entered with `result` false, draws the samples of the
sampler in order and stops after the first one that is valid. -/
theorem searchLoop_budget {σ δ ρ : Type} (isValid : σ → Bool)
    (sampleUniformNear : ρ → σ → δ → σ × ρ) (temp : σ) (distance : δ) :
    ∀ (n : Nat) (ss : ρ) (acc : NearbySearch σ), acc.result = false →
      (∀ k, (∀ i t, i < k →
            (sampleSequence sampleUniformNear temp distance n ss)[i]? = some t →
            isValid t = false) →
          (∃ s, (sampleSequence sampleUniformNear temp distance n ss)[k]? = some s ∧
            isValid s = true) →
          (searchLoop isValid sampleUniformNear temp distance n ss acc).result = true ∧
          (searchLoop isValid sampleUniformNear temp distance n ss acc).samples =
            acc.samples ++ (sampleSequence sampleUniformNear temp distance n ss).take (k + 1) ∧
          (searchLoop isValid sampleUniformNear temp distance n ss acc).anchors =
            acc.anchors ++ List.replicate (k + 1) temp) ∧
      ((∀ s ∈ sampleSequence sampleUniformNear temp distance n ss, isValid s = false) →
          (searchLoop isValid sampleUniformNear temp distance n ss acc).result = false ∧
          (searchLoop isValid sampleUniformNear temp distance n ss acc).samples =
            acc.samples ++ sampleSequence sampleUniformNear temp distance n ss ∧
          (searchLoop isValid sampleUniformNear temp distance n ss acc).anchors =
            acc.anchors ++ List.replicate n temp) := by
  intro n
  induction n with
  | zero =>
    intro ss acc hacc
    refine ⟨?_, ?_⟩
    · rintro k _ ⟨s, hs, _⟩
      simp [sampleSequence] at hs
    · intro _
      simp [searchLoop, sampleSequence, hacc]
  | succ n ih =>
    intro ss acc hacc
    have hstep : searchLoop isValid sampleUniformNear temp distance (n + 1) ss acc =
        searchLoop isValid sampleUniformNear temp distance n (sampleUniformNear ss temp distance).2
          { result := isValid (sampleUniformNear ss temp distance).1,
            state := (sampleUniformNear ss temp distance).1,
            anchors := acc.anchors ++ [temp],
            samples := acc.samples ++ [(sampleUniformNear ss temp distance).1] } := by
      simp [searchLoop, hacc]
    rw [hstep]
    simp only [sampleSequence]
    refine ⟨?_, ?_⟩
    · rintro k hbefore ⟨s, hs, hv⟩
      cases k with
      | zero =>
        have hs0 : (sampleUniformNear ss temp distance).1 = s := by simpa using hs
        have hres : isValid (sampleUniformNear ss temp distance).1 = true := by
          rw [hs0]
          exact hv
        rw [searchLoop_of_result isValid sampleUniformNear temp distance n _ _ hres]
        simp [hres]
      | succ k =>
        have h0 : isValid (sampleUniformNear ss temp distance).1 = false :=
          hbefore 0 _ (by omega) (by simp)
        obtain ⟨hfound, _⟩ := ih (sampleUniformNear ss temp distance).2
          { result := isValid (sampleUniformNear ss temp distance).1,
            state := (sampleUniformNear ss temp distance).1,
            anchors := acc.anchors ++ [temp],
            samples := acc.samples ++ [(sampleUniformNear ss temp distance).1] } h0
        obtain ⟨h1, h2, h3⟩ := hfound k
          (fun i t hi ht => hbefore (i + 1) t (by omega) (by simpa using ht))
          ⟨s, by simpa using hs, hv⟩
        refine ⟨h1, ?_, ?_⟩
        · rw [h2]
          simp
        · rw [h3]
          simp [List.replicate_succ]
    · intro hnone
      have h0 : isValid (sampleUniformNear ss temp distance).1 = false :=
        hnone _ (List.mem_cons_self _ _)
      obtain ⟨_, hall⟩ := ih (sampleUniformNear ss temp distance).2
        { result := isValid (sampleUniformNear ss temp distance).1,
          state := (sampleUniformNear ss temp distance).1,
          anchors := acc.anchors ++ [temp],
          samples := acc.samples ++ [(sampleUniformNear ss temp distance).1] } h0
      obtain ⟨h1, h2, h3⟩ := hall (fun s hs => hnone s (List.mem_cons_of_mem _ hs))
      refine ⟨h1, ?_, ?_⟩
      · rw [h2]
        simp
      · rw [h3]
        simp [List.replicate_succ]

/-- An index at which a list has an entry is below its length. -/
theorem lt_length_of_getElem? {α : Type} (l : List α) (k : Nat) (a : α)
    (h : l[k]? = some a) : k < l.length := by
  by_contra hcon
  rw [List.getElem?_eq_none (by omega)] at h
  cases h

/-- C18: when the repaired copy of `near` is invalid, `searchValidNearby`
draws the samples `seq` of the sampler in order; the number of calls of
`sampleUniformNear` is `k + 1` when `seq[k]` is the first of the first
`attempts` samples that the oracle accepts (and true is returned), and
`attempts` when none is accepted (and false is returned); it never exceeds
`attempts`, every sample but the last one drawn is invalid, and with
`attempts = 0` the call returns false with no sample drawn. -/
theorem searchValidNearby_attempt_budget {σ δ ρ : Type} (M : StateManifold σ)
    (isValid : σ → Bool) (sampleUniformNear : ρ → σ → δ → σ × ρ) (ss : ρ)
    (state near : σ) (distance : δ) (attempts : Nat)
    (hinv : isValid (repairedNear M near) = false)
    (r : NearbySearch σ) (seq : List σ)
    (hr : r = searchValidNearby M isValid sampleUniformNear ss state near distance attempts)
    (hseq : seq = sampleSequence sampleUniformNear (repairedNear M near) distance attempts ss) :
    r.anchors.length = r.samples.length ∧
    r.samples.length ≤ attempts ∧
    r.samples = seq.take r.samples.length ∧
    (∀ k s, seq[k]? = some s → isValid s = true →
      (∀ i t, i < k → seq[i]? = some t → isValid t = false) →
      r.samples.length = k + 1 ∧ r.result = true) ∧
    ((∀ s ∈ seq, isValid s = false) → r.samples.length = attempts ∧ r.result = false) ∧
    (∀ i t, i + 1 < r.samples.length → r.samples[i]? = some t → isValid t = false) ∧
    (attempts = 0 → r.result = false ∧ r.samples = [] ∧ r.anchors = []) := by
  have hseqlen : seq.length = attempts := by
    rw [hseq]
    exact length_sampleSequence _ _ _ _ _
  have hloop : r = searchLoop isValid sampleUniformNear (repairedNear M near) distance attempts ss
      { result := false, state := repairedNear M near, anchors := [], samples := [] } := by
    rw [hr, searchValidNearby_unfold]
    simp [hinv]
  obtain ⟨hfound, hnone⟩ := searchLoop_budget isValid sampleUniformNear (repairedNear M near)
    distance attempts ss
    { result := false, state := repairedNear M near, anchors := [], samples := [] } rfl
  rw [← hloop, ← hseq] at hfound hnone
  simp only [List.nil_append] at hfound hnone
  rcases first_accepted_or_none isValid seq with ⟨k, s, hk, hs, hbefore⟩ | hall
  · obtain ⟨h1, h2, h3⟩ := hfound k hbefore ⟨s, hk, hs⟩
    have hklt : k < attempts := by
      rw [← hseqlen]
      exact lt_length_of_getElem? seq k s hk
    have hlen : r.samples.length = k + 1 := by
      rw [h2, List.length_take, hseqlen]
      omega
    refine ⟨?_, ?_, ?_, ?_, ?_, ?_, ?_⟩
    · rw [h3, hlen, List.length_replicate]
    · omega
    · rw [hlen]
      exact h2
    · intro k' s' hk' hs' hbefore'
      have hkk : k' = k := by
        rcases Nat.lt_trichotomy k' k with hlt | heq | hgt
        · have := hbefore k' s' hlt hk'
          rw [hs'] at this
          cases this
        · exact heq
        · have := hbefore' k s hgt hk
          rw [hs] at this
          cases this
      rw [hkk]
      exact ⟨hlen, h1⟩
    · intro hnoneValid
      have := hnoneValid s (List.getElem?_mem hk)
      rw [hs] at this
      cases this
    · intro i t hi ht
      rw [h2, List.getElem?_take, if_pos (by omega)] at ht
      exact hbefore i t (by omega) ht
    · intro h0
      omega
  · obtain ⟨h1, h2, h3⟩ := hnone hall
    have hlen : r.samples.length = attempts := by rw [h2, hseqlen]
    refine ⟨?_, ?_, ?_, ?_, ?_, ?_, ?_⟩
    · rw [h3, hlen, List.length_replicate]
    · omega
    · rw [hlen, ← hseqlen, List.take_length]
      exact h2
    · intro k s hk hs _
      have := hall s (List.getElem?_mem hk)
      rw [hs] at this
      cases this
    · intro _
      exact ⟨hlen, h1⟩
    · intro i t _ ht
      rw [h2] at ht
      exact hall t (List.getElem?_mem ht)
    · intro h0
      refine ⟨h1, ?_, ?_⟩
      · exact List.length_eq_zero.mp (by omega)
      · rw [h3, h0]
        rfl

/-- Witness for C18: on the interval `[0, 10]` with `near = [20]`, an oracle
that accepts only `[12]` and a sampler whose samples are `[10]`, `[11]`,
`[12]`, ..., the third of 5 attempts succeeds: three calls, result true. -/
theorem searchValidNearby_attempt_budget_witness :
    (fun s : List ℚ => decide (s = [12])) (repairedNear (RealVectorStateManifold 1 0 10) [20])
      = false ∧
    (searchValidNearby (RealVectorStateManifold 1 0 10) (fun s : List ℚ => decide (s = [12]))
      (fun (g : Nat) (near : List ℚ) (_ : ℚ) => (near.map (fun v => v + (g : ℚ)), g + 1))
      0 [0] [20] 1 5).samples.length = 3 ∧
    (searchValidNearby (RealVectorStateManifold 1 0 10) (fun s : List ℚ => decide (s = [12]))
      (fun (g : Nat) (near : List ℚ) (_ : ℚ) => (near.map (fun v => v + (g : ℚ)), g + 1))
      0 [0] [20] 1 5).result = true := by
  have hrep : repairedNear (RealVectorStateManifold 1 0 10) [20] = [10] := by
    simp [repairedNear, RealVectorStateManifold]
    norm_num
  have hinv : (fun s : List ℚ => decide (s = [12]))
      (repairedNear (RealVectorStateManifold 1 0 10) [20]) = false := by
    rw [hrep]
    simp
  have h := (searchValidNearby_attempt_budget (RealVectorStateManifold 1 0 10)
    (fun s : List ℚ => decide (s = [12]))
    (fun (g : Nat) (near : List ℚ) (_ : ℚ) => (near.map (fun v => v + (g : ℚ)), g + 1))
    0 [0] [20] 1 5 hinv _ _ rfl rfl).2.2.2.1 2 [12]
    (by rw [hrep]; simp [sampleSequence]; norm_num)
    (by simp)
    (by
      rw [hrep]
      intro i t hi ht
      interval_cases i <;> simp [sampleSequence] at ht <;> subst ht <;> norm_num)
  exact ⟨hinv, h.1, h.2⟩

/-! ## Sampler pool: calls of the factory -/

theorem length_allocSequence {α κ : Type} (allocStateSampler : κ → α × κ) :
    ∀ (n : Nat) (factory : κ), (allocSequence allocStateSampler n factory).1.length = n := by
  intro n
  induction n with
  | zero => intro factory; rfl
  | succ n ih =>
    intro factory
    simp only [allocSequence, List.length_cons, ih]

/-- The loop of `resize` calls the factory once per slot, in order, and each
slot it visits ends up holding the sampler of its call. -/
theorem resizeLoop_allocates {α κ : Type} (allocStateSampler : κ → α × κ) :
    ∀ (remaining i : Nat) (acc : Resized α κ),
      i + remaining ≤ acc.array.samplers_.length →
      (resizeLoop allocStateSampler remaining i acc).allocated =
          acc.allocated ++ (allocSequence allocStateSampler remaining acc.factory).1 ∧
      (resizeLoop allocStateSampler remaining i acc).factory =
          (allocSequence allocStateSampler remaining acc.factory).2 ∧
      ∀ j, j < remaining →
        (resizeLoop allocStateSampler remaining i acc).array.samplers_[i + j]? =
          ((allocSequence allocStateSampler remaining acc.factory).1[j]?).map some := by
  intro remaining
  induction remaining with
  | zero =>
    intro i acc _
    exact ⟨by simp [resizeLoop, allocSequence], rfl, fun j hj => by omega⟩
  | succ remaining ih =>
    intro i acc hlen
    have hi : i < acc.array.samplers_.length := by omega
    obtain ⟨h1, h2, h3⟩ := ih (i + 1)
      { array := { samplers_ := acc.array.samplers_.set i (some (allocStateSampler acc.factory).1) },
        factory := (allocStateSampler acc.factory).2,
        allocated := acc.allocated ++ [(allocStateSampler acc.factory).1] }
      (by simp only [List.length_set]; omega)
    obtain ⟨_, hframe⟩ := resizeLoop_frame allocStateSampler remaining (i + 1)
      { array := { samplers_ := acc.array.samplers_.set i (some (allocStateSampler acc.factory).1) },
        factory := (allocStateSampler acc.factory).2,
        allocated := acc.allocated ++ [(allocStateSampler acc.factory).1] }
    simp only [resizeLoop, allocSequence]
    refine ⟨?_, h2, ?_⟩
    · rw [h1]
      simp
    · intro j hj
      cases j with
      | zero =>
        have hkeep := hframe i (Nat.lt_succ_self i)
        simp only [Nat.add_zero]
        rw [hkeep]
        simp [List.getElem?_set_self hi]
      | succ j =>
        have hnext := h3 j (by omega)
        rw [Nat.add_assoc, Nat.add_comm 1 j] at hnext
        rw [hnext]
        simp

/-- C19: `resize(n)` on a pool of size `m` calls the sampler factory exactly
`n - m` times (not at all when `n ≤ m`), the calls being consecutive calls of
the factory, and each new trailing slot `m + j`, `j < n - m`, then holds the
sampler that call number `j` returned. -/
theorem resize_factory_calls {α κ : Type} (allocStateSampler : κ → α × κ) (factory : κ)
    (a : StateSamplerArray α) (n : Nat) :
    (StateSamplerArray.resize allocStateSampler factory a n).allocated.length = n - a.size ∧
    (StateSamplerArray.resize allocStateSampler factory a n).allocated =
      (allocSequence allocStateSampler (n - a.size) factory).1 ∧
    (StateSamplerArray.resize allocStateSampler factory a n).factory =
      (allocSequence allocStateSampler (n - a.size) factory).2 ∧
    (∀ j, j < n - a.size →
      (StateSamplerArray.resize allocStateSampler factory a n).array.samplers_[a.size + j]? =
        ((StateSamplerArray.resize allocStateSampler factory a n).allocated[j]?).map some) ∧
    (n ≤ a.size →
      (StateSamplerArray.resize allocStateSampler factory a n).allocated = [] ∧
      (StateSamplerArray.resize allocStateSampler factory a n).factory = factory) := by
  simp only [StateSamplerArray.size]
  by_cases hlt : a.samplers_.length < n
  · have hgt : ¬ a.samplers_.length > n := by omega
    obtain ⟨h1, h2, h3⟩ := resizeLoop_allocates allocStateSampler (n - a.samplers_.length)
      a.samplers_.length
      { array := { samplers_ := resizeVector a.samplers_ n }, factory := factory,
        allocated := [] }
      (by simp only [length_resizeVector]; omega)
    simp only [List.nil_append] at h1
    simp only [StateSamplerArray.resize, hgt, hlt, if_true, if_false]
    refine ⟨?_, h1, h2, ?_, fun hle => by omega⟩
    · rw [h1]
      exact length_allocSequence _ _ _
    · intro j hj
      rw [h3 j hj, h1]
  · have hzero : n - a.samplers_.length = 0 := by omega
    by_cases hgt : a.samplers_.length > n
    · simp [StateSamplerArray.resize, hgt, hzero, allocSequence]
    · simp [StateSamplerArray.resize, hgt, hlt, hzero, allocSequence]

/-! ## Motion discretisation into a buffer of the caller -/

/-- Without `alloc`, `k` further iterations of the interpolation loop write
the interpolated states for `j, ..., j + k - 1` into the next `k` allocated
slots; the loop then stops because `j` has reached `count` or because the
buffer is full. -/
theorem motionLoop_noalloc {σ : Type} (M : StateManifold σ) (s1 s2 : σ) (count : Nat)
    (hcount : count < 2 ^ 32) :
    ∀ (k fuel j : Nat) (pre : StateVector σ) (mid : List σ) (tail : StateVector σ)
      (ts : List ℚ),
      k ≤ fuel → j + k ≤ count → (j + k = count ∨ tail = []) → mid.length = k →
      pre.length + k < 2 ^ 32 →
      motionLoop M s1 s2 count false fuel j
          { added := pre.length, states := pre ++ (mid.map some ++ tail), ts := ts } =
        some { added := pre.length + k,
               states := pre ++ ((List.range' j k).map
                  (fun i : Nat => some (M.interpolate s1 s2 (divDouble i count))) ++ tail),
               ts := ts ++ (List.range' j k).map (fun i : Nat => divDouble i count) } := by
  intro k
  induction k with
  | zero =>
    intro fuel j pre mid tail ts _ hj hstop hmid _
    have hmid0 : mid = [] := List.length_eq_zero.mp hmid
    subst hmid0
    cases fuel with
    | zero => simp [motionLoop]
    | succ fuel =>
      have hcond : ¬ (j < count ∧ pre.length < (pre ++ ([].map some ++ tail)).length) := by
        rintro ⟨h1, h2⟩
        rcases hstop with h | h
        · omega
        · subst h
          simp at h2
      rw [motionLoop, if_neg hcond]
      simp
  | succ k ih =>
    intro fuel j pre mid tail ts hfuel hj hstop hmid hlen
    obtain ⟨fuel, rfl⟩ : ∃ f, fuel = f + 1 := ⟨fuel - 1, by omega⟩
    obtain ⟨x, mid, rfl⟩ : ∃ x m, mid = x :: m := by
      cases mid with
      | nil => simp at hmid
      | cons x m => exact ⟨x, m, rfl⟩
    have hcond : j < count ∧ pre.length < (pre ++ ((x :: mid).map some ++ tail)).length := by
      refine ⟨by omega, ?_⟩
      simp only [List.length_append, List.length_cons, List.length_map]
      omega
    have hj1 : (j + 1) % 2 ^ 32 = j + 1 := Nat.mod_eq_of_lt (by omega)
    have ha1 : (pre.length + 1) % 2 ^ 32 = pre.length + 1 := Nat.mod_eq_of_lt (by omega)
    have hmidlen : mid.length = k := by simpa using hmid
    have hstep := ih fuel (j + 1)
      (pre ++ [some (M.interpolate s1 s2 (divDouble j count))]) mid tail
      (ts ++ [divDouble j count]) (by omega) (by omega)
      (by rcases hstop with h | h
          · exact Or.inl (by omega)
          · exact Or.inr h)
      hmidlen
      (by simp only [List.length_append, List.length_singleton]; omega)
    simp only [List.length_append, List.length_singleton, List.append_assoc,
      List.singleton_append] at hstep
    rw [motionLoop, if_pos hcond]
    simp only [Bool.false_eq_true, if_false, List.map_cons, List.cons_append,
      writeState_append, Option.some_bind, Option.bind_eq_bind, hj1, ha1]
    rw [hstep]
    simp only [List.range'_succ, List.map_cons, List.cons_append, Nat.add_assoc,
      Nat.add_comm 1 k]

/-- The first `k` numbers from `s` on are the first `k` of the first `n`. -/
theorem take_range'_of_le (s k n : Nat) (h : k ≤ n) :
    (List.range' s n).take k = List.range' s k := by
  have hsplit : List.range' s n = List.range' s k ++ List.range' (s + k) (n - k) := by
    rw [List.range'_append_1]
    congr 1
    omega
  rw [hsplit, List.take_append_of_le_length (by simp), List.take_of_length_le (by simp)]

theorem motionPath_interior {σ : Type} (M : StateManifold σ) (s1 s2 : σ) (n : Nat) :
    motionPath M s1 s2 n false =
      (List.range' 1 n).map
        (fun j : Nat => M.interpolate s1 s2 (divDouble j (n + 1))) := by
  simp [motionPath]

theorem motionPath_endpoints {σ : Type} (M : StateManifold σ) (s1 s2 : σ) (n : Nat) :
    motionPath M s1 s2 n true =
      s1 :: ((List.range' 1 n).map
        (fun j : Nat => M.interpolate s1 s2 (divDouble j (n + 1))) ++ [s2]) := by
  simp [motionPath]

theorem length_motionPath {σ : Type} (M : StateManifold σ) (s1 s2 : σ) (n : Nat)
    (endpoints : Bool) :
    (motionPath M s1 s2 n endpoints).length = if endpoints then n + 2 else n := by
  cases endpoints <;> simp [motionPath]

/-- Without endpoints and without `alloc`, the buffer receives the first
`min(m, n)` interior states, and the rest of it is left as it was. -/
theorem getMotionStates_noalloc_interior {σ : Type} (M : StateManifold σ) (s1 s2 : σ)
    (buf : List σ) (n : Nat) (hn : n < 2 ^ 32 - 1) :
    ∃ ts, getMotionStates M s1 s2 (buf.map some) n false false =
      some { added := min buf.length n,
             states := ((motionPath M s1 s2 n false).take buf.length ++ buf.drop n).map some,
             ts := ts } := by
  rw [motionPath_interior]
  rcases Nat.eq_zero_or_pos n with hn0 | hnpos
  · subst hn0
    exact ⟨[], by simp [getMotionStates, getMotionStatesDegenerate]⟩
  have hc : (n + 1) % 2 ^ 32 = n + 1 := Nat.mod_eq_of_lt (by omega)
  have hnot : ¬ n + 1 < 2 := by omega
  have hk : min n buf.length ≤ n := Nat.min_le_left _ _
  have hsplit : buf.map some =
      [] ++ ((buf.take (min n buf.length)).map some ++ (buf.drop (min n buf.length)).map some) := by
    rw [List.nil_append, ← List.map_append, List.take_append_drop]
  have hloop := motionLoop_noalloc M s1 s2 (n + 1) (by omega) (min n buf.length) (n + 1) 1 []
    (buf.take (min n buf.length)) ((buf.drop (min n buf.length)).map some) []
    (by omega) (by omega)
    (by
      rcases Nat.le_total n buf.length with h | h
      · exact Or.inl (by rw [Nat.min_eq_left h, Nat.add_comm])
      · refine Or.inr ?_
        rw [Nat.min_eq_right h, List.drop_of_length_le (le_refl _)]
        rfl)
    (by rw [List.length_take]; omega)
    (by simp only [List.length_nil]; omega)
  rw [← hsplit] at hloop
  simp only [List.length_nil, List.nil_append, Nat.zero_add] at hloop
  refine ⟨(List.range' 1 (min n buf.length)).map
    (fun i : Nat => divDouble i (n + 1)), ?_⟩
  simp only [getMotionStates, hc, hnot, if_false, Bool.false_eq_true, false_and, and_false,
    Option.some_bind, Option.bind_eq_bind]
  rw [hloop]
  simp only [Option.some_bind, Option.bind_eq_bind, MotionStates.mk.injEq, Option.some.injEq,
    true_and, and_true]
  refine ⟨Nat.min_comm _ _, ?_⟩
  rcases Nat.le_total n buf.length with h | h
  · rw [Nat.min_eq_left h, List.take_of_length_le (by simpa using h), List.map_append,
      List.map_map]
    rfl
  · rw [Nat.min_eq_right h, List.drop_of_length_le (le_refl _), List.drop_of_length_le h,
      List.map_append, ← List.map_take, take_range'_of_le 1 _ _ h, List.map_map]
    rfl

/-- With endpoints and without `alloc`, the buffer receives the first
`min(m, n + 2)` states of the path, and the rest of it is left as it was; the
returned count is that number modulo `2 ^ 32`. -/
theorem getMotionStates_noalloc_endpoints {σ : Type} (M : StateManifold σ) (s1 s2 : σ)
    (buf : List σ) (n : Nat) (hn : n < 2 ^ 32 - 1) :
    ∃ ts, getMotionStates M s1 s2 (buf.map some) n true false =
      some { added := (min buf.length (n + 2)) % 2 ^ 32,
             states :=
               ((motionPath M s1 s2 n true).take buf.length ++ buf.drop (n + 2)).map some,
             ts := ts } := by
  rw [motionPath_endpoints]
  rcases Nat.eq_zero_or_pos n with hn0 | hnpos
  · subst hn0
    refine ⟨[], ?_⟩
    cases buf with
    | nil => simp [getMotionStates, getMotionStatesDegenerate]
    | cons b0 buf =>
      cases buf with
      | nil => simp [getMotionStates, getMotionStatesDegenerate, writeState, copyState]
      | cons b1 buf =>
        simp [getMotionStates, getMotionStatesDegenerate, writeState, copyState]
  have hc : (n + 1) % 2 ^ 32 = n + 1 := Nat.mod_eq_of_lt (by omega)
  have hnot : ¬ n + 1 < 2 := by omega
  cases buf with
  | nil =>
    refine ⟨[], ?_⟩
    simp only [getMotionStates, hc, hnot, if_false, Bool.false_eq_true, List.map_nil,
      List.length_nil, Option.some_bind, Option.bind_eq_bind, gt_iff_lt, Nat.lt_irrefl,
      and_false, motionLoop]
    simp
  | cons b0 buf =>
    have hsplit : buf.map some =
        (buf.take (min n buf.length)).map some ++ (buf.drop (min n buf.length)).map some := by
      rw [← List.map_append, List.take_append_drop]
    have hloop := motionLoop_noalloc M s1 s2 (n + 1) (by omega) (min n buf.length) (n + 1) 1
      [some s1] (buf.take (min n buf.length)) ((buf.drop (min n buf.length)).map some) []
      (by omega) (by omega)
      (by
        rcases Nat.le_total n buf.length with h | h
        · exact Or.inl (by rw [Nat.min_eq_left h, Nat.add_comm])
        · refine Or.inr ?_
          rw [Nat.min_eq_right h, List.drop_of_length_le (le_refl _)]
          rfl)
      (by rw [List.length_take]; omega)
      (by simp only [List.length_singleton]; omega)
    rw [← hsplit] at hloop
    simp only [List.length_singleton, List.singleton_append, List.nil_append] at hloop
    refine ⟨(List.range' 1 (min n buf.length)).map
      (fun i : Nat => divDouble i (n + 1)), ?_⟩
    have hw0 : writeState (some b0 :: buf.map some) 0 (fun old => copyState old s1) =
        some (some s1 :: buf.map some) :=
      writeState_append [] b0 (fun old => copyState old s1) (buf.map some)
    simp only [getMotionStates, hc, hnot, if_false, Bool.false_eq_true, List.map_cons,
      List.length_cons, Nat.zero_lt_succ, and_self, and_true, if_true, hw0,
      Option.some_bind, Option.bind_eq_bind, Nat.zero_add,
      Nat.one_mod_two_pow_eq_one.mpr (by norm_num : 0 < 32)]
    rw [hloop]
    simp only [Option.some_bind, Option.bind_eq_bind]
    rcases Nat.lt_or_ge n buf.length with h | h
    · -- the loop ends because `j` reaches `count`; the slot for `s2` exists
      rw [Nat.min_eq_left (Nat.le_of_lt h)]
      have hdrop : buf.drop n = buf[n] :: buf.drop (n + 1) := List.drop_eq_getElem_cons h
      have hcond : 1 + n <
          (some s1 :: ((List.range' 1 n).map
            (fun i : Nat => some (M.interpolate s1 s2 (divDouble i (n + 1)))) ++
            (buf.drop n).map some)).length := by
        simp only [List.length_cons, List.length_append, List.length_map, List.length_range',
          List.length_drop]
        omega
      have hw : writeState
          (some s1 :: ((List.range' 1 n).map
            (fun i : Nat => some (M.interpolate s1 s2 (divDouble i (n + 1)))) ++
            (buf.drop n).map some)) (1 + n) (fun old => copyState old s2) =
          some (some s1 :: ((List.range' 1 n).map
            (fun i : Nat => some (M.interpolate s1 s2 (divDouble i (n + 1)))) ++
            some s2 :: (buf.drop (n + 1)).map some)) := by
        have hgen := writeState_append
          (some s1 :: (List.range' 1 n).map
            (fun i : Nat => some (M.interpolate s1 s2 (divDouble i (n + 1)))))
          buf[n] (fun old => copyState old s2) ((buf.drop (n + 1)).map some)
        simp only [List.length_cons, List.length_map, List.length_range',
          List.cons_append] at hgen
        rw [hdrop, List.map_cons, Nat.add_comm 1 n]
        exact hgen
      rw [if_pos hcond, hw]
      have hmin : min (buf.length + 1) (n + 2) = n + 2 := Nat.min_eq_right (by omega)
      have htake : List.take (buf.length + 1)
          (s1 :: ((List.range' 1 n).map
            (fun j : Nat => M.interpolate s1 s2 (divDouble j (n + 1))) ++ [s2])) =
          s1 :: ((List.range' 1 n).map
            (fun j : Nat => M.interpolate s1 s2 (divDouble j (n + 1))) ++ [s2]) :=
        List.take_of_length_le (by simp; omega)
      simp only [Option.some_bind, Option.bind_eq_bind, hmin, htake, List.drop_succ_cons,
        List.map_append, List.map_cons, List.map_map, List.cons_append, List.append_assoc,
        List.map_nil, List.nil_append, List.singleton_append]
      have hadd : 1 + n + 1 = n + 2 := by omega
      rw [hadd]
      rfl
    · -- the buffer is full before `j` reaches `count`
      rw [Nat.min_eq_right h, List.drop_of_length_le (le_refl _)]
      have hcond : ¬ 1 + buf.length <
          (some s1 :: ((List.range' 1 buf.length).map
            (fun i : Nat => some (M.interpolate s1 s2 (divDouble i (n + 1)))) ++
            ([] : List σ).map some)).length := by
        simp only [List.length_cons, List.length_append, List.length_map, List.length_range',
          List.length_nil]
        omega
      rw [if_neg hcond]
      have hmin : min (buf.length + 1) (n + 2) = buf.length + 1 := Nat.min_eq_left (by omega)
      have hmod : (buf.length + 1) % 2 ^ 32 = buf.length + 1 := Nat.mod_eq_of_lt (by omega)
      have htake : List.take (buf.length + 1)
          (s1 :: ((List.range' 1 n).map
            (fun j : Nat => M.interpolate s1 s2 (divDouble j (n + 1))) ++ [s2])) =
          s1 :: (List.range' 1 buf.length).map
            (fun j : Nat => M.interpolate s1 s2 (divDouble j (n + 1))) := by
        rw [List.take_succ_cons, List.take_append_of_le_length (by simpa using h),
          ← List.map_take, take_range'_of_le 1 _ _ h]
      have hdrop : List.drop (n + 2) (b0 :: buf) = [] := by
        rw [List.drop_succ_cons]
        exact List.drop_of_length_le (by omega)
      simp only [hmin, hmod, htake, hdrop, List.map_nil, List.append_nil, List.map_cons,
        List.map_map, Nat.add_comm 1 buf.length]
      rfl

/-- A buffer whose first entries are overwritten by a path: its length, the
entries that come from the path, and the entries that are left. -/
theorem overwritten_prefix {α : Type} (path buf : List α) :
    (path.take buf.length ++ buf.drop path.length).length = buf.length ∧
    (∀ i, i < min buf.length path.length →
      (path.take buf.length ++ buf.drop path.length)[i]? = path[i]?) ∧
    (∀ i, min buf.length path.length ≤ i →
      (path.take buf.length ++ buf.drop path.length)[i]? = buf[i]?) := by
  have hlen : (path.take buf.length).length = min buf.length path.length := List.length_take _ _
  refine ⟨?_, ?_, ?_⟩
  · rw [List.length_append, hlen, List.length_drop]
    omega
  · intro i hi
    rw [List.getElem?_append_left (by omega), List.getElem?_take, if_pos (by omega)]
  · intro i hi
    rw [List.getElem?_append_right (by omega), hlen, List.getElem?_drop]
    rcases Nat.le_total buf.length path.length with h | h
    · rw [Nat.min_eq_left h] at hi
      rw [List.getElem?_eq_none (by omega), List.getElem?_eq_none (by omega)]
    · rw [Nat.min_eq_right h] at hi ⊢
      congr 1
      omega

/-- C17 (amended): without `alloc`, for a buffer of `m` allocated states and
`n < 2 ^ 32 - 1`, whenever the number `min(m, n + 2)` (with endpoints) or
`min(m, n)` (without) is below `2 ^ 32`, `getMotionStates` returns that
number; the buffer still has length `m`; the entries from the returned index
on are as before the call; and the entries below it hold, in order from index
0, the states of the path. -/
theorem getMotionStates_noalloc_in_buffer {σ : Type} (M : StateManifold σ) (s1 s2 : σ)
    (buf : List σ) (n : Nat) (endpoints : Bool) (hn : n < 2 ^ 32 - 1)
    (hfit : min buf.length (if endpoints then n + 2 else n) < 2 ^ 32) :
    ∃ r, getMotionStates M s1 s2 (buf.map some) n endpoints false = some r ∧
      r.states.length = buf.length ∧
      r.added = min buf.length (if endpoints then n + 2 else n) ∧
      (∀ i, r.added ≤ i → r.states[i]? = (buf.map some)[i]?) ∧
      (∀ i, i < r.added →
        r.states[i]? = ((motionPath M s1 s2 n endpoints)[i]?).map some) := by
  have hpath := length_motionPath M s1 s2 n endpoints
  obtain ⟨hlen, hlow, hhigh⟩ := overwritten_prefix (motionPath M s1 s2 n endpoints) buf
  have hclosed : ∃ ts, getMotionStates M s1 s2 (buf.map some) n endpoints false =
      some { added := min buf.length (if endpoints then n + 2 else n),
             states := ((motionPath M s1 s2 n endpoints).take buf.length ++
                buf.drop (motionPath M s1 s2 n endpoints).length).map some,
             ts := ts } := by
    cases endpoints with
    | false =>
      obtain ⟨ts, h⟩ := getMotionStates_noalloc_interior M s1 s2 buf n hn
      refine ⟨ts, ?_⟩
      rw [h, hpath]
      rfl
    | true =>
      obtain ⟨ts, h⟩ := getMotionStates_noalloc_endpoints M s1 s2 buf n hn
      refine ⟨ts, ?_⟩
      have hmod : (min buf.length (n + 2)) % 2 ^ 32 = min buf.length (n + 2) :=
        Nat.mod_eq_of_lt (by simpa using hfit)
      rw [h, hpath, hmod]
      rfl
  obtain ⟨ts, hrun⟩ := hclosed
  refine ⟨_, hrun, ?_, rfl, ?_, ?_⟩
  · simp only [List.length_map]
    exact hlen
  · intro i hi
    simp only [List.getElem?_map]
    rw [hhigh i (by rw [hpath]; exact hi)]
  · intro i hi
    simp only [List.getElem?_map]
    rw [hlow i (by rw [hpath]; exact hi)]

/-- Witness for C17: a buffer of 3 states and `n = 7` with endpoints on the
1-D Euclidean manifold: 3 states are written and 3 is returned. -/
theorem getMotionStates_noalloc_in_buffer_witness :
    (7 < 2 ^ 32 - 1 ∧
      min ([[9], [9], [9]] : List (List ℚ)).length (if true then 7 + 2 else 7) < 2 ^ 32) ∧
    ∃ r, getMotionStates (RealVectorStateManifold 1 0 10) [0] [4]
        (([[9], [9], [9]] : List (List ℚ)).map some) 7 true false = some r ∧
      r.states.length = 3 ∧ r.added = 3 :=
  ⟨⟨by decide, by decide⟩,
    match getMotionStates_noalloc_in_buffer (RealVectorStateManifold 1 0 10) [0] [4]
      [[9], [9], [9]] 7 true (by decide) (by decide) with
    | ⟨r, hr, hlen, hadd, _⟩ => ⟨r, hr, hlen, hadd⟩⟩

/-- Counterexample to C17 as stated: a buffer of `m = 2 ^ 32` allocated
states and `n = 2 ^ 32 - 2` with endpoints: all `2 ^ 32` entries are written,
the counter wraps, and 0 is returned, not `min(m, n + 2) = 2 ^ 32`. -/
theorem getMotionStates_noalloc_counterexample :
    (4294967294 < 2 ^ 32 - 1 ∧
      (List.replicate 4294967296 ([0] : List ℚ)).length = 4294967296 ∧
      min 4294967296 (4294967294 + 2) ≠ 0) ∧
    ∃ st ts, getMotionStates (RealVectorStateManifold 1 0 10) [0] [4]
        ((List.replicate 4294967296 ([0] : List ℚ)).map some) 4294967294 true false =
      some { added := 0, states := st, ts := ts } := by
  obtain ⟨ts, h⟩ := getMotionStates_noalloc_endpoints (RealVectorStateManifold 1 0 10) [0] [4]
    (List.replicate 4294967296 ([0] : List ℚ)) 4294967294 (by decide)
  have hwrap : (min 4294967296 (4294967294 + 2)) % 2 ^ 32 = 0 := by decide
  rw [List.length_replicate, hwrap] at h
  exact ⟨⟨by decide, List.length_replicate _ _, by decide⟩, _, ts, h⟩

end ompl.base
